import Mathlib

/-!
# PassThrough filter (`pcl/filters/impl/passthrough.hpp`)

A shallow embedding of `pcl::PassThrough<PointT>::applyFilterIndices` and
`pcl::PassThrough<PointT>::applyFilter`, followed by theorems about them.

Conventions of the embedding.

* The value of a C++ `float` is an `F32`: not-a-number, the two infinities, or a
  finite rational.  Only `std::isfinite` and the ordering comparisons are used by
  the filter, so no rounding is involved.
* A point record is its bytes; a `float` stored in it is read from 4 bytes
  (IEEE-754 binary32, least significant byte first) at any byte offset.
* A `std::vector<int>` is a `List Int`.
* Undefined behaviour of the C++ code (indexing a vector out of its bounds) is the
  result `none`.
-/

namespace pcl

/-! ## Floating point values -/

/-- The value of a C++ `float`: NaN, minus infinity, plus infinity, or a finite
number.  Finite values are rationals; every finite `float` is one. -/
inductive F32 where
  | nan : F32
  | negInf : F32
  | posInf : F32
  | fin (q : ℚ) : F32
  deriving DecidableEq

namespace F32

/-- The test `std::isfinite`. -/
def isfinite : F32 → Bool
  | fin _ => true
  | _ => false

/-- The C++ comparison `a < b` on floats: false as soon as one side is NaN. -/
def lt : F32 → F32 → Bool
  | nan, _ => false
  | negInf, nan => false
  | negInf, negInf => false
  | negInf, posInf => true
  | negInf, fin _ => true
  | posInf, _ => false
  | fin _, nan => false
  | fin _, negInf => false
  | fin _, posInf => true
  | fin a, fin b => decide (a < b)

/-- The C++ comparison `a <= b` on floats: false as soon as one side is NaN. -/
def le : F32 → F32 → Bool
  | nan, _ => false
  | negInf, nan => false
  | negInf, negInf => true
  | negInf, posInf => true
  | negInf, fin _ => true
  | posInf, nan => false
  | posInf, negInf => false
  | posInf, posInf => true
  | posInf, fin _ => false
  | fin _, nan => false
  | fin _, negInf => false
  | fin _, posInf => true
  | fin a, fin b => decide (a ≤ b)

/-- The C++ comparison `a > b`. -/
def gt (a b : F32) : Bool := lt b a

/-- The C++ comparison `a >= b`. -/
def ge (a b : F32) : Bool := le b a

/-- The value of the `float` whose 32 bits are the number `w` (IEEE-754 binary32:
bit 31 the sign, bits 30-23 the exponent, bits 22-0 the fraction; bits above the
32nd play no part).  A finite value is `± m * 2 ^ (e - 1) / 2 ^ 149`, with
`m = 2 ^ 23 + fraction` for a normal number and `m = fraction`, `e = 1` for a
subnormal one. -/
def ofBits (w : Nat) : F32 :=
  if w / 2 ^ 23 % 256 = 255 then
    if w % 2 ^ 23 = 0 then (if w / 2 ^ 31 % 2 = 0 then posInf else negInf)
    else nan
  else
    fin (mkRat
      ((if w / 2 ^ 31 % 2 = 0 then 1 else -1)
        * ((if w / 2 ^ 23 % 256 = 0 then w % 2 ^ 23
            else (2 ^ 23 + w % 2 ^ 23) * 2 ^ (w / 2 ^ 23 % 256 - 1) : Nat) : Int))
      (2 ^ 149))

end F32

/-- A C++ `float` as it is stored: its 32 bits, as a number. -/
structure Float32 where
  bits : Nat
  deriving DecidableEq

/-- The value of a stored `float`. -/
def Float32.val (v : Float32) : F32 := F32.ofBits v.bits

/-- The test `std::isfinite` on a stored `float`. -/
def Float32.isfinite (v : Float32) : Bool := v.val.isfinite

/-! ## The bytes of a record -/

/-- The byte at position `i` of a record (a byte is a number modulo 256; a
position that the list does not store holds 0). -/
def readByte (bytes : List Nat) (i : Nat) : Nat := bytes.getD i 0 % 256

/-- The record with the byte at position `i` set to `b`. -/
def writeByte (bytes : List Nat) (i : Nat) (b : Nat) : List Nat :=
  (bytes ++ List.replicate (i + 1 - bytes.length) 0).set i (b % 256)

/-- The 32 bits held by the 4 bytes from position `offset` on, least significant
byte first: what `memcpy (&field_value, pt_data + offset, sizeof (float))`
copies. -/
def read4 (bytes : List Nat) (offset : Nat) : Nat :=
  readByte bytes offset + 256 * readByte bytes (offset + 1)
    + 65536 * readByte bytes (offset + 2) + 16777216 * readByte bytes (offset + 3)

/-- The record with the 32 bits `w` stored in the 4 bytes from position `offset`
on. -/
def write4 (bytes : List Nat) (offset : Nat) (w : Nat) : List Nat :=
  writeByte (writeByte (writeByte (writeByte bytes offset w) (offset + 1) (w / 256))
    (offset + 2) (w / 65536)) (offset + 3) (w / 16777216)

/-! ## Points, fields and clouds -/

/-- A point record `PointT`: the bytes of the record, and the places that the
point type gives to its `float` members `x`, `y` and `z` (byte offsets; three
distinct members, so their storage does not overlap). -/
structure PointT where
  bytes : List Nat
  x_offset : Nat
  y_offset : Nat
  z_offset : Nat
  xy_apart : x_offset + 4 ≤ y_offset ∨ y_offset + 4 ≤ x_offset
  xz_apart : x_offset + 4 ≤ z_offset ∨ z_offset + 4 ≤ x_offset
  yz_apart : y_offset + 4 ≤ z_offset ∨ z_offset + 4 ≤ y_offset
  deriving DecidableEq

/-- The read `memcpy (&field_value, pt_data + offset, sizeof (float))` of lines
126-128: the 4 bytes of the record at byte `offset`, whatever the offset, taken as
a `float`. -/
def PointT.readFloat (p : PointT) (offset : Nat) : F32 :=
  F32.ofBits (read4 p.bytes offset)

/-- The member `x` of a point. -/
def PointT.x (p : PointT) : F32 := p.readFloat p.x_offset

/-- The member `y` of a point. -/
def PointT.y (p : PointT) : F32 := p.readFloat p.y_offset

/-- The member `z` of a point. -/
def PointT.z (p : PointT) : F32 := p.readFloat p.z_offset

/-- The store of the `float` `v` in the 4 bytes at byte `offset`. -/
def PointT.writeFloat (p : PointT) (offset : Nat) (v : Float32) : PointT :=
  { p with bytes := write4 p.bytes offset v.bits }

/-- The assignment `pt.x = pt.y = pt.z = v`: `z` is assigned first, then `y`, then
`x`. -/
def PointT.setXYZ (p : PointT) (v : Float32) : PointT :=
  ((p.writeFloat p.z_offset v).writeFloat p.y_offset v).writeFloat p.x_offset v

/-- An entry of the field list of a point type (`pcl::PCLPointField`): the name
of the field and its byte offset in the record. -/
structure PCLPointField where
  name : String
  offset : Nat
  deriving DecidableEq

/-- Search of `getFieldIndex` from position `d` on. -/
def getFieldIndexFrom (field_name : String) : List PCLPointField → Nat → Int
  | [], _ => -1
  | f :: fs, d => if f.name = field_name then (d : Int) else getFieldIndexFrom field_name fs (d + 1)

/-- Modelled from the spec: `pcl::getFieldIndex` (declared in `pcl/common/io.h`)
is the FieldLocator: given the field list of the point type and a field name, the
position of the field of that name in the list, or `-1` when the name is absent
from the schema. -/
def getFieldIndex (fields : List PCLPointField) (field_name : String) : Int :=
  getFieldIndexFrom field_name fields 0

/-- A point cloud: the point records and the density flag. -/
structure PointCloud where
  points : List PointT
  is_dense : Bool
  deriving DecidableEq

/-- The access `cloud.points[idx]` with an `int` index; out of bounds is `none`. -/
def PointCloud.at (cloud : PointCloud) (idx : Int) : Option PointT :=
  if 0 ≤ idx then cloud.points[idx.toNat]? else none

/-! ## The filter object -/

/-- The members of `pcl::PassThrough<PointT>` (with those of its bases
`FilterIndices`, `Filter` and `PCLBase`) that the two functions use.  The two
limits are only compared with field values, so they are held as values; the fill
value is stored into points, so it is held as its 32 bits. -/
structure PassThrough where
  input_ : PointCloud
  indices_ : List Int
  removed_indices_ : List Int
  extract_removed_indices_ : Bool
  filter_field_name_ : String
  filter_limit_min_ : F32
  filter_limit_max_ : F32
  negative_ : Bool
  keep_organized_ : Bool
  user_filter_value_ : Float32

/-- The call `std::vector<int>::resize (n)`: truncate, or pad with zeros. -/
def resize (v : List Int) (n : Nat) : List Int :=
  v.take n ++ List.replicate (n - v.length) 0

/-- The assignment `v[k] = val`; out of bounds is `none`. -/
def writeAt (v : List Int) (k : Nat) (val : Int) : Option (List Int) :=
  if k < v.length then some (v.set k val) else none

/-- The local state of `applyFilterIndices`: the two arrays and the two write
cursors `oii` (output indices iterator) and `rii` (removed indices iterator). -/
structure Cursors where
  indices : List Int
  removed : List Int
  oii : Nat
  rii : Nat

/-- The statement `indices[oii++] = inp_idx`. -/
def pushKept (s : Cursors) (inp_idx : Int) : Option Cursors :=
  match writeAt s.indices s.oii inp_idx with
  | none => none
  | some v => some { s with indices := v, oii := s.oii + 1 }

/-- The statements
`if (extract_removed_indices_) (*removed_indices_)[rii++] = inp_idx;`. -/
def pushRemoved (extract_removed_indices : Bool) (s : Cursors) (inp_idx : Int) :
    Option Cursors :=
  if extract_removed_indices then
    match writeAt s.removed s.rii inp_idx with
    | none => none
    | some v => some { s with removed := v, rii := s.rii + 1 }
  else some s

/-- The loop of `applyFilterIndices` taken when no field name is set
(lines 85-97): only non-finite coordinates are filtered. -/
def loopFinite (self : PassThrough) : List Int → Cursors → Option Cursors
  | [], s => some s
  | inp_idx :: rest, s =>
    match self.input_.at inp_idx with
    | none => none
    | some p =>
      if !p.x.isfinite || !p.y.isfinite || !p.z.isfinite then
        match pushRemoved self.extract_removed_indices_ s inp_idx with
        | none => none
        | some s1 => loopFinite self rest s1
      else
        match pushKept s inp_idx with
        | none => none
        | some s1 => loopFinite self rest s1

/-- The loop of `applyFilterIndices` taken when the field was found
(lines 113-156). -/
def loopField (self : PassThrough) (fields : List PCLPointField) (distance_idx : Int) :
    List Int → Cursors → Option Cursors
  | [], s => some s
  | inp_idx :: rest, s =>
    match self.input_.at inp_idx with
    | none => none
    | some p =>
      if !p.x.isfinite || !p.y.isfinite || !p.z.isfinite then
        match pushRemoved self.extract_removed_indices_ s inp_idx with
        | none => none
        | some s1 => loopField self fields distance_idx rest s1
      else
        match (if 0 ≤ distance_idx then fields[distance_idx.toNat]? else none) with
        | none => none
        | some f =>
          let field_value := p.readFloat f.offset
          if !field_value.isfinite then
            match pushRemoved self.extract_removed_indices_ s inp_idx with
            | none => none
            | some s1 => loopField self fields distance_idx rest s1
          else if !self.negative_ && (field_value.lt self.filter_limit_min_
              || field_value.gt self.filter_limit_max_) then
            match pushRemoved self.extract_removed_indices_ s inp_idx with
            | none => none
            | some s1 => loopField self fields distance_idx rest s1
          else if self.negative_ && field_value.ge self.filter_limit_min_
              && field_value.le self.filter_limit_max_ then
            match pushRemoved self.extract_removed_indices_ s inp_idx with
            | none => none
            | some s1 => loopField self fields distance_idx rest s1
          else
            match pushKept s inp_idx with
            | none => none
            | some s1 => loopField self fields distance_idx rest s1

/-- The function `pcl::PassThrough<PointT>::applyFilterIndices (std::vector<int> &indices)`.
`fields` is the field list of the point type.  The result is the filter object
after the call (its `removed_indices_` changed) and the vector `indices`. -/
def applyFilterIndices (fields : List PCLPointField) (self : PassThrough)
    (indices : List Int) : Option (PassThrough × List Int) :=
  let s0 : Cursors :=
    { indices := resize indices self.indices_.length
      removed := resize self.removed_indices_ self.indices_.length
      oii := 0
      rii := 0 }
  if self.filter_field_name_ = "" then
    match loopFinite self self.indices_ s0 with
    | none => none
    | some s =>
      some ({ self with removed_indices_ := resize s.removed s.rii }, resize s.indices s.oii)
  else
    let distance_idx := getFieldIndex fields self.filter_field_name_
    if distance_idx = -1 then
      some ({ self with removed_indices_ := [] }, [])
    else
      match loopField self fields distance_idx self.indices_ s0 with
      | none => none
      | some s =>
        some ({ self with removed_indices_ := resize s.removed s.rii }, resize s.indices s.oii)

/-- The loop `for (idx : *removed_indices_) output.points[idx].x = ... = value`
of `applyFilter` (lines 59-60). -/
def fillRemoved (value : Float32) : List Int → PointCloud → Option PointCloud
  | [], output => some output
  | idx :: rest, output =>
    match output.at idx with
    | none => none
    | some p =>
      fillRemoved value rest { output with points := output.points.set idx.toNat (p.setXYZ value) }

/-- The function `pcl::PassThrough<PointT>::applyFilter (PointCloud &output)`.
`copyPointCloud` is the indexed copy `pcl::copyPointCloud (in, indices, out)` of
`pcl/common/io.h`, taken as a parameter.  The result is the filter object after
the call and the cloud `output`. -/
def applyFilter (copyPointCloud : PointCloud → List Int → PointCloud → Option PointCloud)
    (fields : List PCLPointField) (self : PassThrough) (output : PointCloud) :
    Option (PassThrough × PointCloud) :=
  let indices : List Int := []
  if self.keep_organized_ then
    let temp := self.extract_removed_indices_
    match applyFilterIndices fields { self with extract_removed_indices_ := true } indices with
    | none => none
    | some (self1, _) =>
      let self2 := { self1 with extract_removed_indices_ := temp }
      match fillRemoved self2.user_filter_value_ self2.removed_indices_ self2.input_ with
      | none => none
      | some output1 =>
        if !self2.user_filter_value_.isfinite then
          some (self2, { output1 with is_dense := false })
        else some (self2, output1)
  else
    let output1 := { output with is_dense := true }
    match applyFilterIndices fields self indices with
    | none => none
    | some (self1, indices1) =>
      match copyPointCloud self1.input_ indices1 output1 with
      | none => none
      | some output2 => some (self1, output2)

/-! ## The classification of one index -/

/-- The decision the loop of lines 85-97 takes for one input index: `some true`
when the index is written to `indices`, `some false` when it goes to the removed
indices, `none` when the point cannot be read. -/
def keepFinite (self : PassThrough) (inp_idx : Int) : Option Bool :=
  match self.input_.at inp_idx with
  | none => none
  | some p => some (p.x.isfinite && p.y.isfinite && p.z.isfinite)

/-- The value the loop of lines 113-156 reads for the filter field of the point
at `inp_idx`: `fields[distance_idx].offset` read as a `float`. -/
def fieldValue (self : PassThrough) (fields : List PCLPointField) (distance_idx : Int)
    (inp_idx : Int) : Option F32 :=
  match self.input_.at inp_idx with
  | none => none
  | some p =>
    match (if 0 ≤ distance_idx then fields[distance_idx.toNat]? else none) with
    | none => none
    | some f => some (p.readFloat f.offset)

/-- The range tests of lines 139 and 147 on a finite field value: `true` when the
point passes both, so that it reaches line 155. -/
def passesLimits (self : PassThrough) (field_value : F32) : Bool :=
  !(!self.negative_ && (field_value.lt self.filter_limit_min_
      || field_value.gt self.filter_limit_max_))
    && !(self.negative_ && field_value.ge self.filter_limit_min_
      && field_value.le self.filter_limit_max_)

/-- The decision the loop of lines 113-156 takes for one input index. -/
def keepField (self : PassThrough) (fields : List PCLPointField) (distance_idx : Int)
    (inp_idx : Int) : Option Bool :=
  match self.input_.at inp_idx with
  | none => none
  | some p =>
    if !p.x.isfinite || !p.y.isfinite || !p.z.isfinite then some false
    else
      match fieldValue self fields distance_idx inp_idx with
      | none => none
      | some field_value => some (field_value.isfinite && passesLimits self field_value)

/-- The shape shared by the two loops: every input index is classified by `dec`
and written at the kept or at the removed cursor. -/
def partitionLoop (dec : Int → Option Bool) (extract : Bool) :
    List Int → Cursors → Option Cursors
  | [], s => some s
  | inp_idx :: rest, s =>
    match dec inp_idx with
    | none => none
    | some true =>
      match pushKept s inp_idx with
      | none => none
      | some s1 => partitionLoop dec extract rest s1
    | some false =>
      match pushRemoved extract s inp_idx with
      | none => none
      | some s1 => partitionLoop dec extract rest s1

/-- The loop invariant: the arrays have `n` entries, the kept cursor stands after
the list `k` written so far, and, when the removed indices are extracted, the
removed cursor stands after the list `r` written so far. -/
structure Cursors.Holds (n : Nat) (extract : Bool) (k r : List Int) (s : Cursors) : Prop where
  len_indices : s.indices.length = n
  len_removed : s.removed.length = n
  oii_eq : s.oii = k.length
  kept_eq : s.indices.take k.length = k
  rii_eq : s.rii = if extract then r.length else 0
  removed_eq : extract = true → s.removed.take r.length = r

/-- Every input index is a valid position of the input cloud. -/
def ValidIndices (self : PassThrough) : Prop :=
  ∀ i ∈ self.indices_, 0 ≤ i ∧ i < (self.input_.points.length : Int)

instance (self : PassThrough) : Decidable (ValidIndices self) := by
  unfold ValidIndices; infer_instance

/-! ## Observations used in the statements -/

/-- The point at `idx` exists and its `x`, `y` and `z` are all finite. -/
def PointCloud.coordsFinite (cloud : PointCloud) (idx : Int) : Bool :=
  match cloud.at idx with
  | some p => p.x.isfinite && p.y.isfinite && p.z.isfinite
  | none => false

/-- The filter field of the point at `idx` can be read and its value satisfies
`P`. -/
def fieldSatisfies (self : PassThrough) (fields : List PCLPointField) (P : F32 → Bool)
    (idx : Int) : Bool :=
  match fieldValue self fields (getFieldIndex fields self.filter_field_name_) idx with
  | some v => P v
  | none => false

/-- The point `q` is the point `p` with `x = y = z = v` and nothing else changed:
same places of the members, the three members hold `v`, and every byte outside
the storage of `x`, `y` and `z` is the byte of `p`. -/
def PointT.Filled (v : Float32) (p q : PointT) : Prop :=
  q.x_offset = p.x_offset ∧ q.y_offset = p.y_offset ∧ q.z_offset = p.z_offset
  ∧ q.x = v.val ∧ q.y = v.val ∧ q.z = v.val
  ∧ ∀ b, (b < p.x_offset ∨ p.x_offset + 4 ≤ b) → (b < p.y_offset ∨ p.y_offset + 4 ≤ b) →
      (b < p.z_offset ∨ p.z_offset + 4 ≤ b) → readByte q.bytes b = readByte p.bytes b

/-- The vector `indices` after `applyFilterIndices`: the kept indices. -/
def keptIndices (fields : List PCLPointField) (self : PassThrough) (indices : List Int) :
    Option (List Int) :=
  (applyFilterIndices fields self indices).map (fun r => r.2)

/-- The member `removed_indices_` after `applyFilterIndices`. -/
def removedIndices (fields : List PCLPointField) (self : PassThrough) (indices : List Int) :
    Option (List Int) :=
  (applyFilterIndices fields self indices).map (fun r => r.1.removed_indices_)

/-- The classification of `applyFilterIndices` as a predicate on an input index:
`true` when the pass writes the index to `indices`. -/
def keeps (fields : List PCLPointField) (self : PassThrough) (idx : Int) : Bool :=
  if self.filter_field_name_ = "" then self.input_.coordsFinite idx
  else if getFieldIndex fields self.filter_field_name_ = -1 then false
  else self.input_.coordsFinite idx
    && fieldSatisfies self fields (fun v => v.isfinite && passesLimits self v) idx

/-! ## The indexed copy -/

/-- The records of `cloud_in` at the positions `indices`, in the order of
`indices`; `none` when a position is outside the cloud. -/
def selectPoints (cloud_in : PointCloud) : List Int → Option (List PointT)
  | [] => some []
  | idx :: rest =>
    match cloud_in.at idx with
    | none => none
    | some p =>
      match selectPoints cloud_in rest with
      | none => none
      | some ps => some (p :: ps)

/-- Modelled from the spec: `pcl::copyPointCloud (cloud_in, indices, cloud_out)`
(declared in `pcl/common/io.h`) is the generic indexed copy of the point storage:
it builds the point sequence of `cloud_out` as exactly the records of `cloud_in` at
`indices`, in order, every field of each record copied.  The specification does not
say what the copy does with the density flag of `cloud_out`; here it is left as it
is, and no statement below about the points depends on that. -/
def copyPointCloud (cloud_in : PointCloud) (indices : List Int) (cloud_out : PointCloud) :
    Option PointCloud :=
  match selectPoints cloud_in indices with
  | none => none
  | some ps => some { cloud_out with points := ps }

/-- The cursors of `applyFilterIndices` before the loop (lines 77-79). -/
def initialCursors (self : PassThrough) (indices : List Int) : Cursors :=
  { indices := resize indices self.indices_.length
    removed := resize self.removed_indices_ self.indices_.length
    oii := 0
    rii := 0 }

/-- The loop that `applyFilterIndices` runs for the configured field name (the one
of lines 85-97 without a field name, the one of lines 113-156 with one), run over
the index list `l` from the cursors `s`. -/
def passLoop (fields : List PCLPointField) (self : PassThrough) (l : List Int)
    (s : Cursors) : Option Cursors :=
  if self.filter_field_name_ = "" then loopFinite self l s
  else loopField self fields (getFieldIndex fields self.filter_field_name_) l s

/-! ## Test data: the scenarios of the specification -/

/-- The field list of a point type with the fields `x`, `y`, `z`. -/
def fieldsXYZ : List PCLPointField :=
  [⟨"x", 0⟩, ⟨"y", 4⟩, ⟨"z", 8⟩]

/-- The stored `float` 0.0. -/
def f32_0 : Float32 := ⟨0x00000000⟩

/-- The stored `float` 1.0. -/
def f32_1 : Float32 := ⟨0x3F800000⟩

/-- The stored `float` 2.0. -/
def f32_2 : Float32 := ⟨0x40000000⟩

/-- The stored `float` 5.0. -/
def f32_5 : Float32 := ⟨0x40A00000⟩

/-- A stored `float` that is not a number. -/
def f32_nan : Float32 := ⟨0x7FC00000⟩

/-- A point of 16 bytes with `x`, `y`, `z` at the offsets 0, 4, 8 and the
coordinates `(0, 0, z)`. -/
def pointZ (z : Float32) : PointT :=
  { bytes := write4 (List.replicate 16 0) 8 z.bits
    x_offset := 0
    y_offset := 4
    z_offset := 8
    xy_apart := by decide
    xz_apart := by decide
    yz_apart := by decide }

/-- The cloud of scenario 1: field `z` has the values `[0, 1, 2, NaN, 5]`. -/
def cloud1 : PointCloud :=
  { points := [pointZ f32_0, pointZ f32_1, pointZ f32_2, pointZ f32_nan, pointZ f32_5]
    is_dense := false }

/-- The filter of scenario 1: field `z`, limits `[0, 2]`, all indices. -/
def filter1 (negative extract : Bool) : PassThrough :=
  { input_ := cloud1
    indices_ := [0, 1, 2, 3, 4]
    removed_indices_ := []
    extract_removed_indices_ := extract
    filter_field_name_ := "z"
    filter_limit_min_ := F32.fin 0
    filter_limit_max_ := F32.fin 2
    negative_ := negative
    keep_organized_ := false
    user_filter_value_ := f32_nan }


/-- The field list of a packed point type: `x`, `y`, `z` at the byte offsets 1, 5,
9 and a further `float` field `t` at the byte offset 14. -/
def fieldsPacked : List PCLPointField :=
  [⟨"x", 1⟩, ⟨"y", 5⟩, ⟨"z", 9⟩, ⟨"t", 14⟩]

/-- A point of the packed type, 20 bytes, with the coordinates `(0, 0, z)` and the
field `t`. -/
def pointPacked (z t : Float32) : PointT :=
  { bytes := write4 (write4 (List.replicate 20 0) 9 z.bits) 14 t.bits
    x_offset := 1
    y_offset := 5
    z_offset := 9
    xy_apart := by decide
    xz_apart := by decide
    yz_apart := by decide }

/-- A filter on the field `t` of the packed type, limits `[0, 2]`: the four points
have `t = 1`, `t = 5`, `z = NaN` and `t = NaN`. -/
def filterPacked (negative extract : Bool) : PassThrough :=
  { input_ :=
      { points := [pointPacked f32_1 f32_1, pointPacked f32_1 f32_5,
          pointPacked f32_nan f32_1, pointPacked f32_1 f32_nan]
        is_dense := false }
    indices_ := [0, 1, 2, 3]
    removed_indices_ := []
    extract_removed_indices_ := extract
    filter_field_name_ := "t"
    filter_limit_min_ := F32.fin 0
    filter_limit_max_ := F32.fin 2
    negative_ := negative
    keep_organized_ := false
    user_filter_value_ := f32_0 }

/-- Scenario 1 with a field name that the point type does not have. -/
def filterUnknownField (negative extract : Bool) : PassThrough :=
  { filter1 negative extract with filter_field_name_ := "w" }

/-- Scenario 3: scenario 1 in organized mode with the fill value `0`. -/
def filter3 : PassThrough :=
  { filter1 false false with keep_organized_ := true, user_filter_value_ := f32_0 }

/-- An empty cloud, as the `output` argument before the call. -/
def emptyCloud : PointCloud := { points := [], is_dense := true }

/-- An indexed copy that is never reached in organized mode. -/
def noCopy : PointCloud → List Int → PointCloud → Option PointCloud :=
  fun _ _ _ => none

/-- Scenario 4: scenario 1 in organized mode with the fill value NaN, on an input
cloud whose density flag is true and from which nothing is removed. -/
def filter4 : PassThrough :=
  { input_ := { points := [pointZ f32_1], is_dense := true }
    indices_ := [0]
    removed_indices_ := []
    extract_removed_indices_ := false
    filter_field_name_ := "z"
    filter_limit_min_ := F32.fin 0
    filter_limit_max_ := F32.fin 2
    negative_ := false
    keep_organized_ := true
    user_filter_value_ := f32_nan }

/-! ## Lemmas on vectors -/

theorem take_set_self (v : Int) : ∀ (l : List Int) (k : Nat), k < l.length →
    (l.set k v).take (k + 1) = l.take k ++ [v]
  | [], k, h => by simp at h
  | a :: l, 0, _ => by simp
  | a :: l, k + 1, h => by
    have := take_set_self v l k (by simpa using h)
    simp [List.set, this]

theorem take_set_of_le (v : Int) : ∀ (l : List Int) (k m : Nat), m ≤ k →
    (l.set k v).take m = l.take m
  | [], _, _, _ => by simp
  | a :: l, _, 0, _ => by simp
  | a :: l, 0, m + 1, h => by omega
  | a :: l, k + 1, m + 1, h => by
    have := take_set_of_le v l k m (by omega)
    simp [List.set, this]

theorem resize_length (v : List Int) (n : Nat) : (resize v n).length = n := by
  unfold resize
  simp only [List.length_append, List.length_take, List.length_replicate]
  omega

theorem resize_eq_take (v : List Int) (n : Nat) (h : n ≤ v.length) :
    resize v n = v.take n := by
  unfold resize
  have : n - v.length = 0 := by omega
  simp [this]

/-! ## The loops are stable partitions -/

theorem pushKept_holds {n : Nat} {extract : Bool} {k r : List Int} {s : Cursors}
    (h : s.Holds n extract k r) (hk : k.length < n) (i : Int) :
    ∃ s1, pushKept s i = some s1 ∧ s1.Holds n extract (k ++ [i]) r := by
  have hlt : s.oii < s.indices.length := by rw [h.oii_eq, h.len_indices]; exact hk
  refine ⟨{ s with indices := s.indices.set s.oii i, oii := s.oii + 1 }, ?_, ?_⟩
  · simp [pushKept, writeAt, hlt]
  · refine ⟨by simp [h.len_indices], h.len_removed, by simp [h.oii_eq], ?_, h.rii_eq,
      h.removed_eq⟩
    have := take_set_self i s.indices s.oii hlt
    rw [h.oii_eq, h.kept_eq] at this
    simpa [h.oii_eq] using this

theorem pushRemoved_holds {n : Nat} {extract : Bool} {k r : List Int} {s : Cursors}
    (h : s.Holds n extract k r) (hr : r.length < n) (i : Int) :
    ∃ s1, pushRemoved extract s i = some s1 ∧ s1.Holds n extract k (r ++ [i]) := by
  cases extract with
  | false =>
    refine ⟨s, by simp [pushRemoved], h.len_indices, h.len_removed, h.oii_eq, h.kept_eq, ?_, ?_⟩
    · simpa using h.rii_eq
    · intro hc; cases hc
  | true =>
    have hrii : s.rii = r.length := by simpa using h.rii_eq
    have hlt : s.rii < s.removed.length := by rw [hrii, h.len_removed]; exact hr
    refine ⟨{ s with removed := s.removed.set s.rii i, rii := s.rii + 1 }, ?_, ?_⟩
    · simp [pushRemoved, writeAt, hlt]
    · refine ⟨h.len_indices, by simp [h.len_removed], h.oii_eq, h.kept_eq, by simp [hrii], ?_⟩
      intro _
      have := take_set_self i s.removed s.rii hlt
      rw [hrii, h.removed_eq rfl] at this
      simpa [hrii] using this

theorem partitionLoop_holds (dec : Int → Option Bool) (n : Nat) (extract : Bool) :
    ∀ (rest k r : List Int) (s : Cursors), s.Holds n extract k r →
      k.length + r.length + rest.length ≤ n →
      (∀ i ∈ rest, (dec i).isSome = true) →
      ∃ s1, partitionLoop dec extract rest s = some s1 ∧
        s1.Holds n extract (k ++ rest.filter (fun i => dec i == some true))
          (r ++ rest.filter (fun i => dec i == some false))
  | [], k, r, s, h, _, _ => ⟨s, rfl, by simpa using h⟩
  | i :: rest, k, r, s, h, hn, hd => by
    have hi : (dec i).isSome = true := hd i (List.mem_cons_self _ _)
    have hrest : ∀ j ∈ rest, (dec j).isSome = true :=
      fun j hj => hd j (List.mem_cons_of_mem _ hj)
    simp only [List.length_cons] at hn
    cases hdi : dec i with
    | none => simp [hdi] at hi
    | some b =>
      cases b with
      | true =>
        obtain ⟨s1, hs1, hh1⟩ := pushKept_holds h (by omega) i
        obtain ⟨s2, hs2, hh2⟩ := partitionLoop_holds dec n extract rest (k ++ [i]) r s1 hh1
          (by simp only [List.length_append, List.length_singleton]; omega) hrest
        refine ⟨s2, by simp [partitionLoop, hdi, hs1, hs2], ?_⟩
        simpa [List.filter_cons, hdi] using hh2
      | false =>
        obtain ⟨s1, hs1, hh1⟩ := pushRemoved_holds h (by omega) i
        obtain ⟨s2, hs2, hh2⟩ := partitionLoop_holds dec n extract rest k (r ++ [i]) s1 hh1
          (by simp only [List.length_append, List.length_singleton]; omega) hrest
        refine ⟨s2, by simp [partitionLoop, hdi, hs1, hs2], ?_⟩
        simpa [List.filter_cons, hdi] using hh2

theorem loopFinite_eq (self : PassThrough) : ∀ (l : List Int) (s : Cursors),
    loopFinite self l s = partitionLoop (keepFinite self) self.extract_removed_indices_ l s
  | [], _ => rfl
  | i :: rest, s => by
    simp only [loopFinite, partitionLoop, keepFinite]
    cases hp : self.input_.at i with
    | none => rfl
    | some p =>
      simp only
      by_cases hf : (p.x.isfinite && p.y.isfinite && p.z.isfinite) = true
      · have hc : (!p.x.isfinite || !p.y.isfinite || !p.z.isfinite) = false := by
          revert hf; cases p.x.isfinite <;> cases p.y.isfinite <;> cases p.z.isfinite <;> simp
        rw [hf]
        simp only [hc, Bool.false_eq_true, if_false]
        cases pushKept s i with
        | none => rfl
        | some s1 => exact loopFinite_eq self rest s1
      · have hf2 : (p.x.isfinite && p.y.isfinite && p.z.isfinite) = false := by simpa using hf
        have hc : (!p.x.isfinite || !p.y.isfinite || !p.z.isfinite) = true := by
          revert hf2; cases p.x.isfinite <;> cases p.y.isfinite <;> cases p.z.isfinite <;> simp
        rw [hf2]
        simp only [hc, if_true]
        cases pushRemoved self.extract_removed_indices_ s i with
        | none => rfl
        | some s1 => exact loopFinite_eq self rest s1

theorem loopField_eq (self : PassThrough) (fields : List PCLPointField) (d : Int) :
    ∀ (l : List Int) (s : Cursors),
      loopField self fields d l s
        = partitionLoop (keepField self fields d) self.extract_removed_indices_ l s
  | [], _ => rfl
  | i :: rest, s => by
    have ih := loopField_eq self fields d rest
    simp only [loopField, partitionLoop, keepField, fieldValue, passesLimits]
    cases hp : self.input_.at i with
    | none => rfl
    | some p =>
      simp only
      by_cases hc : (!p.x.isfinite || !p.y.isfinite || !p.z.isfinite) = true
      · simp only [hc, if_true]
        cases pushRemoved self.extract_removed_indices_ s i with
        | none => rfl
        | some s1 => exact ih s1
      · simp only [hc, Bool.false_eq_true, if_false]
        cases (if 0 ≤ d then fields[d.toNat]? else none) with
        | none => rfl
        | some f =>
          simp only
          generalize p.readFloat f.offset = v
          cases hfin : v.isfinite <;> cases hneg : self.negative_ <;>
            cases hlt : v.lt self.filter_limit_min_ <;>
            cases hgt : v.gt self.filter_limit_max_ <;>
            cases hge : v.ge self.filter_limit_min_ <;>
            cases hle : v.le self.filter_limit_max_ <;>
            simp <;>
            first
              | (cases pushRemoved self.extract_removed_indices_ s i with
                  | none => rfl
                  | some s1 => exact ih s1)
              | (cases pushKept s i with
                  | none => rfl
                  | some s1 => exact ih s1)

theorem partitionLoop_result (dec : Int → Option Bool) (extract : Bool)
    (idx ind rem : List Int) (hd : ∀ i ∈ idx, (dec i).isSome = true) :
    ∃ s, partitionLoop dec extract idx
          { indices := resize ind idx.length, removed := resize rem idx.length,
            oii := 0, rii := 0 } = some s ∧
      resize s.indices s.oii = idx.filter (fun i => dec i == some true) ∧
      resize s.removed s.rii
        = if extract then idx.filter (fun i => dec i == some false) else [] := by
  have h0 : Cursors.Holds idx.length extract [] []
      { indices := resize ind idx.length, removed := resize rem idx.length,
        oii := 0, rii := 0 } :=
    ⟨resize_length _ _, resize_length _ _, rfl, by simp, by simp, by intro _; simp⟩
  obtain ⟨s, hs, hh⟩ := partitionLoop_holds dec idx.length extract idx [] [] _ h0 (by simp) hd
  simp only [List.nil_append] at hh
  refine ⟨s, hs, ?_, ?_⟩
  · have hle : s.oii ≤ s.indices.length := by
      rw [hh.oii_eq, hh.len_indices]; exact List.length_filter_le _ _
    rw [resize_eq_take _ _ hle, hh.oii_eq, hh.kept_eq]
  · cases extract with
    | false =>
      have : s.rii = 0 := by simpa using hh.rii_eq
      simp [this, resize]
    | true =>
      have hrii : s.rii = (idx.filter (fun i => dec i == some false)).length := by
        simpa using hh.rii_eq
      have hle : s.rii ≤ s.removed.length := by
        rw [hrii, hh.len_removed]; exact List.length_filter_le _ _
      rw [resize_eq_take _ _ hle, hrii, hh.removed_eq rfl]
      simp

/-! ## Reading a valid input -/

theorem at_of_valid (cloud : PointCloud) (i : Int) (h0 : 0 ≤ i)
    (h1 : i < (cloud.points.length : Int)) :
    ∃ p, cloud.at i = some p ∧ p ∈ cloud.points := by
  have hlt : i.toNat < cloud.points.length := by omega
  refine ⟨cloud.points[i.toNat], ?_, List.getElem_mem _⟩
  simp [PointCloud.at, h0, List.getElem?_eq_getElem hlt]

theorem getFieldIndexFrom_spec (field_name : String) :
    ∀ (fs : List PCLPointField) (d : Nat),
      getFieldIndexFrom field_name fs d = -1 ∧ (∀ f ∈ fs, f.name ≠ field_name) ∨
      ∃ k f, fs[k]? = some f ∧ f.name = field_name ∧
        getFieldIndexFrom field_name fs d = ((d + k : Nat) : Int)
  | [], _ => Or.inl ⟨rfl, by simp⟩
  | g :: fs, d => by
    by_cases hg : g.name = field_name
    · exact Or.inr ⟨0, g, by simp, hg, by simp [getFieldIndexFrom, hg]⟩
    · rcases getFieldIndexFrom_spec field_name fs (d + 1) with ⟨h1, h2⟩ | ⟨k, f, h1, h2, h3⟩
      · refine Or.inl ⟨by simp [getFieldIndexFrom, hg, h1], ?_⟩
        intro f hf
        rcases List.mem_cons.mp hf with rfl | hf
        · exact hg
        · exact h2 f hf
      · refine Or.inr ⟨k + 1, f, by simpa using h1, h2, ?_⟩
        simp only [getFieldIndexFrom, hg, if_false, h3]
        push_cast; ring

theorem getFieldIndex_found (fields : List PCLPointField) (field_name : String)
    (h : getFieldIndex fields field_name ≠ -1) :
    ∃ f, f ∈ fields ∧ f.name = field_name ∧
      (if 0 ≤ getFieldIndex fields field_name
        then fields[(getFieldIndex fields field_name).toNat]? else none) = some f := by
  rcases getFieldIndexFrom_spec field_name fields 0 with ⟨h1, _⟩ | ⟨k, f, h1, h2, h3⟩
  · exact absurd h1 h
  · refine ⟨f, List.getElem?_mem h1, h2, ?_⟩
    unfold getFieldIndex
    rw [h3]
    simpa using h1

theorem getFieldIndex_absent (fields : List PCLPointField) (field_name : String) :
    getFieldIndex fields field_name = -1 ↔ ∀ f ∈ fields, f.name ≠ field_name := by
  rcases getFieldIndexFrom_spec field_name fields 0 with ⟨h1, h2⟩ | ⟨k, f, h1, h2, h3⟩
  · exact ⟨fun _ => h2, fun _ => h1⟩
  · constructor
    · intro h
      unfold getFieldIndex at h
      rw [h3] at h
      omega
    · intro h
      exact absurd h2 (h f (List.getElem?_mem h1))

theorem keepFinite_isSome (self : PassThrough) (hv : ValidIndices self) :
    ∀ i ∈ self.indices_, (keepFinite self i).isSome = true := by
  intro i hi
  obtain ⟨p, hp, _⟩ := at_of_valid self.input_ i (hv i hi).1 (hv i hi).2
  simp [keepFinite, hp]

theorem fieldValue_isSome (self : PassThrough) (fields : List PCLPointField)
    (hv : ValidIndices self)
    (hd : getFieldIndex fields self.filter_field_name_ ≠ -1) :
    ∀ i ∈ self.indices_,
      (fieldValue self fields (getFieldIndex fields self.filter_field_name_) i).isSome = true := by
  intro i hi
  obtain ⟨p, hp, hmem⟩ := at_of_valid self.input_ i (hv i hi).1 (hv i hi).2
  obtain ⟨f, hf, _, hget⟩ := getFieldIndex_found fields _ hd
  simp only [fieldValue, hp, hget, Option.isSome_some]

theorem keepField_isSome (self : PassThrough) (fields : List PCLPointField)
    (hv : ValidIndices self)
    (hd : getFieldIndex fields self.filter_field_name_ ≠ -1) :
    ∀ i ∈ self.indices_,
      (keepField self fields (getFieldIndex fields self.filter_field_name_) i).isSome = true := by
  intro i hi
  obtain ⟨p, hp, _⟩ := at_of_valid self.input_ i (hv i hi).1 (hv i hi).2
  have hfv := fieldValue_isSome self fields hv hd i hi
  obtain ⟨v, hv2⟩ := Option.isSome_iff_exists.mp hfv
  simp only [keepField, hp, hv2]
  split <;> rfl

/-! ## The result of `applyFilterIndices` -/

/-- With no field name, on valid indices, `applyFilterIndices` returns the stable
partition of the input indices by `keepFinite`. -/
theorem applyFilterIndices_noField (fields : List PCLPointField) (self : PassThrough)
    (indices : List Int) (hname : self.filter_field_name_ = "") (hv : ValidIndices self) :
    applyFilterIndices fields self indices
      = some ({ self with removed_indices_ :=
                  if self.extract_removed_indices_
                  then self.indices_.filter (fun i => keepFinite self i == some false)
                  else [] },
              self.indices_.filter (fun i => keepFinite self i == some true)) := by
  obtain ⟨s, hs, hk, hr⟩ := partitionLoop_result (keepFinite self) self.extract_removed_indices_
    self.indices_ indices self.removed_indices_ (keepFinite_isSome self hv)
  simp only [applyFilterIndices, hname, if_true, loopFinite_eq, hs, hk, hr]

/-- With a field name that the point type has, on a valid input,
`applyFilterIndices` returns the stable partition of the input indices by
`keepField`. -/
theorem applyFilterIndices_field (fields : List PCLPointField) (self : PassThrough)
    (indices : List Int) (hname : self.filter_field_name_ ≠ "")
    (hd : getFieldIndex fields self.filter_field_name_ ≠ -1)
    (hv : ValidIndices self) :
    applyFilterIndices fields self indices
      = some ({ self with removed_indices_ :=
                  if self.extract_removed_indices_
                  then self.indices_.filter (fun i =>
                    keepField self fields (getFieldIndex fields self.filter_field_name_) i
                      == some false)
                  else [] },
              self.indices_.filter (fun i =>
                keepField self fields (getFieldIndex fields self.filter_field_name_) i
                  == some true)) := by
  obtain ⟨s, hs, hk, hr⟩ := partitionLoop_result
    (keepField self fields (getFieldIndex fields self.filter_field_name_))
    self.extract_removed_indices_ self.indices_ indices self.removed_indices_
    (keepField_isSome self fields hv hd)
  simp only [applyFilterIndices, hname, hd, if_false, loopField_eq, hs, hk, hr]

/-- With a field name that the point type does not have, `applyFilterIndices`
clears both vectors and returns. -/
theorem applyFilterIndices_notFound (fields : List PCLPointField) (self : PassThrough)
    (indices : List Int) (hname : self.filter_field_name_ ≠ "")
    (hd : getFieldIndex fields self.filter_field_name_ = -1) :
    applyFilterIndices fields self indices
      = some ({ self with removed_indices_ := [] }, []) := by
  simp only [applyFilterIndices, hname, hd, if_false, if_true]

/-! ## Comparisons -/

theorem keepFinite_eq_true (self : PassThrough) (i : Int) :
    (keepFinite self i == some true) = self.input_.coordsFinite i := by
  unfold keepFinite PointCloud.coordsFinite
  cases self.input_.at i with
  | none => rfl
  | some p =>
    simp only
    cases p.x.isfinite <;> cases p.y.isfinite <;> cases p.z.isfinite <;> rfl

theorem keepField_eq_true (self : PassThrough) (fields : List PCLPointField) (i : Int) :
    (keepField self fields (getFieldIndex fields self.filter_field_name_) i == some true)
      = (self.input_.coordsFinite i
          && fieldSatisfies self fields (fun v => v.isfinite && passesLimits self v) i) := by
  unfold keepField PointCloud.coordsFinite fieldSatisfies
  cases hp : self.input_.at i with
  | none => rfl
  | some p =>
    simp only
    cases hfv : fieldValue self fields (getFieldIndex fields self.filter_field_name_) i with
    | none => cases p.x.isfinite <;> cases p.y.isfinite <;> cases p.z.isfinite <;> rfl
    | some v =>
      simp only
      cases p.x.isfinite <;> cases p.y.isfinite <;> cases p.z.isfinite <;>
        cases v.isfinite <;> cases passesLimits self v <;> rfl

theorem eq_some_false_of_isSome (o : Option Bool) (h : o.isSome = true) :
    (o == some false) = !(o == some true) := by
  cases o with
  | none => simp at h
  | some b => cases b <;> rfl

theorem keptIndices_noField (fields : List PCLPointField) (self : PassThrough)
    (indices : List Int) (hname : self.filter_field_name_ = "") (hv : ValidIndices self) :
    keptIndices fields self indices
      = some (self.indices_.filter (fun i => self.input_.coordsFinite i)) := by
  unfold keptIndices
  rw [applyFilterIndices_noField fields self indices hname hv]
  simp only [Option.map_some', keepFinite_eq_true]

theorem applyFilterIndices_resolved (fields : List PCLPointField) (self : PassThrough)
    (indices : List Int)
    (hcase : self.filter_field_name_ = "" ∨ getFieldIndex fields self.filter_field_name_ ≠ -1)
    (hv : ValidIndices self) :
    applyFilterIndices fields self indices
      = some ({ self with removed_indices_ :=
                  if self.extract_removed_indices_
                  then self.indices_.filter (fun i => !keeps fields self i)
                  else [] },
              self.indices_.filter (keeps fields self)) := by
  by_cases hname : self.filter_field_name_ = ""
  · rw [applyFilterIndices_noField fields self indices hname hv]
    have h1 : self.indices_.filter (fun i => keepFinite self i == some true)
        = self.indices_.filter (keeps fields self) :=
      List.filter_congr (fun i _ => by simp only [keeps, hname, if_true, keepFinite_eq_true])
    have h2 : self.indices_.filter (fun i => keepFinite self i == some false)
        = self.indices_.filter (fun i => !keeps fields self i) :=
      List.filter_congr (fun i hi => by
        rw [eq_some_false_of_isSome _ (keepFinite_isSome self hv i hi)]
        simp only [keeps, hname, if_true, keepFinite_eq_true])
    rw [h1, h2]
  · have hd : getFieldIndex fields self.filter_field_name_ ≠ -1 := by
      rcases hcase with h | h
      · exact absurd h hname
      · exact h
    rw [applyFilterIndices_field fields self indices hname hd hv]
    have h1 : self.indices_.filter (fun i =>
          keepField self fields (getFieldIndex fields self.filter_field_name_) i == some true)
        = self.indices_.filter (keeps fields self) :=
      List.filter_congr (fun i _ => by
        simp only [keeps, hname, hd, if_false, keepField_eq_true])
    have h2 : self.indices_.filter (fun i =>
          keepField self fields (getFieldIndex fields self.filter_field_name_) i == some false)
        = self.indices_.filter (fun i => !keeps fields self i) :=
      List.filter_congr (fun i hi => by
        rw [eq_some_false_of_isSome _ (keepField_isSome self fields hv hd i hi)]
        simp only [keeps, hname, hd, if_false, keepField_eq_true])
    rw [h1, h2]

theorem keptIndices_eq (fields : List PCLPointField) (self : PassThrough)
    (indices : List Int) (hv : ValidIndices self) :
    keptIndices fields self indices = some (self.indices_.filter (keeps fields self)) := by
  by_cases hcase : self.filter_field_name_ = ""
      ∨ getFieldIndex fields self.filter_field_name_ ≠ -1
  · unfold keptIndices
    rw [applyFilterIndices_resolved fields self indices hcase hv]
    rfl
  · have hname : self.filter_field_name_ ≠ "" := fun h => hcase (Or.inl h)
    have hd : getFieldIndex fields self.filter_field_name_ = -1 := by
      by_contra h
      exact hcase (Or.inr h)
    unfold keptIndices
    rw [applyFilterIndices_notFound fields self indices hname hd]
    have : self.indices_.filter (keeps fields self) = [] := by
      rw [List.filter_eq_nil_iff]
      intro i _
      simp [keeps, hname, hd]
    rw [this]
    rfl

theorem removedIndices_eq (fields : List PCLPointField) (self : PassThrough)
    (indices : List Int) (hext : self.extract_removed_indices_ = true)
    (hcase : self.filter_field_name_ = "" ∨ getFieldIndex fields self.filter_field_name_ ≠ -1)
    (hv : ValidIndices self) :
    removedIndices fields self indices
      = some (self.indices_.filter (fun i => !keeps fields self i)) := by
  unfold removedIndices
  rw [applyFilterIndices_resolved fields self indices hcase hv]
  simp [hext]

theorem length_filter_add_not (p : Int → Bool) : ∀ l : List Int,
    (l.filter p).length + (l.filter (fun i => !p i)).length = l.length
  | [] => rfl
  | a :: l => by
    have ih := length_filter_add_not p l
    cases h : p a <;> simp [List.filter_cons, h] <;> omega

theorem coordsFinite_false (cloud : PointCloud) (i : Int) (p : PointT)
    (hp : cloud.at i = some p)
    (h : p.x.isfinite = false ∨ p.y.isfinite = false ∨ p.z.isfinite = false) :
    cloud.coordsFinite i = false := by
  unfold PointCloud.coordsFinite
  rw [hp]
  rcases h with h | h | h <;> simp [h]

theorem keeps_false_of_not_coordsFinite (fields : List PCLPointField) (self : PassThrough)
    (i : Int) (h : self.input_.coordsFinite i = false) : keeps fields self i = false := by
  unfold keeps
  split
  · exact h
  · split
    · rfl
    · simp [h]

/-! ## Partition of the input indices (C3, C4) -/

/-- C3, as stated for every field-name setting, fails when the field is not found:
in scenario 1 with the field name `w`, which the point type does not have, and the
removed indices extracted, both vectors come back empty, so their sizes sum to 0
and not to the 5 input indices, and the input index 0 is in neither. -/
theorem applyFilterIndices_unknownField_not_partition :
    (filterUnknownField false true).extract_removed_indices_ = true
    ∧ keptIndices fieldsXYZ (filterUnknownField false true) [] = some []
    ∧ removedIndices fieldsXYZ (filterUnknownField false true) [] = some []
    ∧ ([] : List Int).length + ([] : List Int).length
        ≠ (filterUnknownField false true).indices_.length
    ∧ (0 : Int) ∈ (filterUnknownField false true).indices_ := by
  decide

/-- C3 (amended): for every valid input and every configuration with
`extractRemoved = true` whose field name is empty or resolves, the kept and the
removed sequences are disjoint, an index is in one of them exactly when it is an
input index, and their sizes sum to the number of input indices. -/
theorem applyFilterIndices_partition (fields : List PCLPointField) (self : PassThrough)
    (indices : List Int) (hext : self.extract_removed_indices_ = true)
    (hcase : self.filter_field_name_ = "" ∨ getFieldIndex fields self.filter_field_name_ ≠ -1)
    (hv : ValidIndices self) :
    ∃ kept removed, keptIndices fields self indices = some kept
      ∧ removedIndices fields self indices = some removed
      ∧ (∀ i, i ∈ kept → i ∈ removed → False)
      ∧ (∀ i, (i ∈ kept ∨ i ∈ removed) ↔ i ∈ self.indices_)
      ∧ kept.length + removed.length = self.indices_.length := by
  refine ⟨_, _, keptIndices_eq fields self indices hv,
    removedIndices_eq fields self indices hext hcase hv, ?_, ?_,
    length_filter_add_not _ _⟩
  · intro i hk hrm
    have h1 := (List.mem_filter.mp hk).2
    have h2 := (List.mem_filter.mp hrm).2
    simp [h1] at h2
  · intro i
    constructor
    · rintro (h | h)
      · exact (List.mem_filter.mp h).1
      · exact (List.mem_filter.mp h).1
    · intro hi
      cases hk : keeps fields self i with
      | true => exact Or.inl (List.mem_filter.mpr ⟨hi, hk⟩)
      | false => exact Or.inr (List.mem_filter.mpr ⟨hi, by simp [hk]⟩)

/-- Scenario 1 with the removed indices extracted is a partition of the five
input indices. -/
theorem applyFilterIndices_partition_scenario1 :
    ∃ kept removed, keptIndices fieldsXYZ (filter1 false true) [] = some kept
      ∧ removedIndices fieldsXYZ (filter1 false true) [] = some removed
      ∧ (∀ i, i ∈ kept → i ∈ removed → False)
      ∧ (∀ i, (i ∈ kept ∨ i ∈ removed) ↔ i ∈ (filter1 false true).indices_)
      ∧ kept.length + removed.length = (filter1 false true).indices_.length :=
  applyFilterIndices_partition fieldsXYZ (filter1 false true) [] rfl (by decide) (by decide)

/-- C4: for every valid input and every configuration with `extractRemoved = true`
whose field name is empty or resolves, the removed sequence is the input index
list filtered in order by "is not placed in kept", and both the kept and the
removed sequence are subsequences of the input index list. -/
theorem applyFilterIndices_stable_partition (fields : List PCLPointField)
    (self : PassThrough) (indices : List Int)
    (hext : self.extract_removed_indices_ = true)
    (hcase : self.filter_field_name_ = "" ∨ getFieldIndex fields self.filter_field_name_ ≠ -1)
    (hv : ValidIndices self) :
    ∃ kept removed, keptIndices fields self indices = some kept
      ∧ removedIndices fields self indices = some removed
      ∧ removed = self.indices_.filter (fun i => decide (i ∉ kept))
      ∧ kept.Sublist self.indices_
      ∧ removed.Sublist self.indices_ := by
  refine ⟨_, _, keptIndices_eq fields self indices hv,
    removedIndices_eq fields self indices hext hcase hv, ?_,
    List.filter_sublist _, List.filter_sublist _⟩
  apply List.filter_congr
  intro i hi
  cases hk : keeps fields self i <;> simp [List.mem_filter, hi, hk]

/-- Scenario 1 (field `z` with values `[0, 1, 2, NaN, 5]`, limits `[0, 2]`,
`negate = false`, removed indices extracted): kept is `[0, 1, 2]` and removed is
`[3, 4]`. -/
theorem applyFilterIndices_stable_partition_scenario1 :
    (∃ kept removed, keptIndices fieldsXYZ (filter1 false true) [] = some kept
      ∧ removedIndices fieldsXYZ (filter1 false true) [] = some removed
      ∧ removed = (filter1 false true).indices_.filter (fun i => decide (i ∉ kept))
      ∧ kept.Sublist (filter1 false true).indices_
      ∧ removed.Sublist (filter1 false true).indices_)
    ∧ keptIndices fieldsXYZ (filter1 false true) [] = some [0, 1, 2]
    ∧ removedIndices fieldsXYZ (filter1 false true) [] = some [3, 4] :=
  ⟨applyFilterIndices_stable_partition fieldsXYZ (filter1 false true) [] rfl (by decide)
    (by decide), by decide, by decide⟩

/-! ## Non-finite points (C5, C6) -/

/-- C5, as stated for any `extractRemoved` value and any field-name setting, fails:
in scenario 1 the point at index 3 has `z = NaN`, yet with `extractRemoved = false`
the removed sequence is empty, and so it is with `extractRemoved = true` when the
field name `w` is not a field of the point type. -/
theorem applyFilterIndices_nonfinite_not_removed :
    (3 : Int) ∈ (filter1 false false).indices_
    ∧ (filter1 false false).input_.at 3 = some (pointZ f32_nan)
    ∧ (pointZ f32_nan).z.isfinite = false
    ∧ removedIndices fieldsXYZ (filter1 false false) [] = some []
    ∧ (3 : Int) ∈ (filterUnknownField false true).indices_
    ∧ (filterUnknownField false true).input_.at 3 = some (pointZ f32_nan)
    ∧ removedIndices fieldsXYZ (filterUnknownField false true) [] = some [] := by
  decide

/-- C5 (amended): for every valid input and every configuration with
`extractRemoved = true` whose field name is empty or resolves (any `negate`, any
limits), every input index whose point has a non-finite x, y or z coordinate is in
the removed sequence. -/
theorem applyFilterIndices_nonfinite_removed (fields : List PCLPointField)
    (self : PassThrough) (indices : List Int)
    (hext : self.extract_removed_indices_ = true)
    (hcase : self.filter_field_name_ = "" ∨ getFieldIndex fields self.filter_field_name_ ≠ -1)
    (hv : ValidIndices self) :
    ∃ removed, removedIndices fields self indices = some removed
      ∧ ∀ i ∈ self.indices_, ∀ p, self.input_.at i = some p →
          (p.x.isfinite = false ∨ p.y.isfinite = false ∨ p.z.isfinite = false) →
          i ∈ removed := by
  refine ⟨_, removedIndices_eq fields self indices hext hcase hv, ?_⟩
  intro i hi p hp hnf
  have hk := keeps_false_of_not_coordsFinite fields self i
    (coordsFinite_false self.input_ i p hp hnf)
  exact List.mem_filter.mpr ⟨hi, by simp [hk]⟩

/-- In scenario 1 with the removed indices extracted, index 3 (`z = NaN`) is
removed. -/
theorem applyFilterIndices_nonfinite_removed_scenario1 :
    (∃ removed, removedIndices fieldsXYZ (filter1 false true) [] = some removed
      ∧ ∀ i ∈ (filter1 false true).indices_, ∀ p, (filter1 false true).input_.at i = some p →
          (p.x.isfinite = false ∨ p.y.isfinite = false ∨ p.z.isfinite = false) →
          i ∈ removed)
    ∧ (filter1 false true).input_.at 3 = some (pointZ f32_nan)
    ∧ removedIndices fieldsXYZ (filter1 false true) [] = some [3, 4] :=
  ⟨applyFilterIndices_nonfinite_removed fieldsXYZ (filter1 false true) [] rfl (by decide)
    (by decide), by decide, by decide⟩

/-- C8: with an empty field name, for every valid input and every value of the
limits and of `negate`, the kept indices are exactly the input index list filtered
in order by "x, y and z are all finite"; the limits, `negate` and the other bytes
of the points play no part, so changing the limits and `negate` changes nothing. -/
theorem applyFilterIndices_finiteness_only (fields : List PCLPointField)
    (self : PassThrough) (indices : List Int)
    (hname : self.filter_field_name_ = "") (hv : ValidIndices self) :
    keptIndices fields self indices
      = some (self.indices_.filter (fun i => self.input_.coordsFinite i))
    ∧ ∀ (lo hi : F32) (neg : Bool),
        keptIndices fields
            { self with filter_limit_min_ := lo, filter_limit_max_ := hi, negative_ := neg }
            indices
          = keptIndices fields self indices := by
  refine ⟨keptIndices_noField fields self indices hname hv, fun lo hi neg => ?_⟩
  rw [keptIndices_noField fields self indices hname hv]
  exact keptIndices_noField fields
    { self with filter_limit_min_ := lo, filter_limit_max_ := hi, negative_ := neg }
    indices hname hv

/-- Scenario 1 without a field name keeps `[0, 1, 2, 4]`: only the point with
`z = NaN` goes. -/
theorem applyFilterIndices_finiteness_only_scenario :
    keptIndices fieldsXYZ { filter1 false true with filter_field_name_ := "" } []
      = some [0, 1, 2, 4] :=
  ((applyFilterIndices_finiteness_only fieldsXYZ
    { filter1 false true with filter_field_name_ := "" } [] rfl (by decide)).1).trans
    (by decide)

/-- C9: when the field name is not empty and no field of the point type has that
name, `applyFilterIndices` returns normally, with `indices` and `removed_indices_`
both empty, for every input index list, every limits, `negate` and
`extractRemoved`. -/
theorem applyFilterIndices_field_not_found (fields : List PCLPointField)
    (self : PassThrough) (indices : List Int)
    (hname : self.filter_field_name_ ≠ "")
    (habsent : ∀ f ∈ fields, f.name ≠ self.filter_field_name_) :
    applyFilterIndices fields self indices = some ({ self with removed_indices_ := [] }, [])
    ∧ keptIndices fields self indices = some []
    ∧ removedIndices fields self indices = some [] := by
  have hd := (getFieldIndex_absent fields self.filter_field_name_).mpr habsent
  have h := applyFilterIndices_notFound fields self indices hname hd
  refine ⟨h, ?_, ?_⟩
  · unfold keptIndices
    rw [h]
    rfl
  · unfold removedIndices
    rw [h]
    rfl

/-- Scenario 1 with the field name `w`: five input indices, nothing kept and
nothing removed. -/
theorem applyFilterIndices_field_not_found_scenario :
    applyFilterIndices fieldsXYZ (filterUnknownField false true) [7]
        = some ({ filterUnknownField false true with removed_indices_ := [] }, [])
    ∧ keptIndices fieldsXYZ (filterUnknownField false true) [7] = some []
    ∧ removedIndices fieldsXYZ (filterUnknownField false true) [7] = some [] :=
  applyFilterIndices_field_not_found fieldsXYZ (filterUnknownField false true) [7] (by decide)
    (by decide)

/-! ## Organized mode (C10) -/

/-! ### Bytes and stored floats -/

theorem getD_append_replicate_zero (bytes : List Nat) (n j : Nat) :
    (bytes ++ List.replicate n 0).getD j 0 = bytes.getD j 0 := by
  simp only [List.getD_eq_getElem?_getD]
  by_cases hlt : j < bytes.length
  · rw [List.getElem?_append_left hlt]
  · have hge : bytes.length ≤ j := by omega
    rw [List.getElem?_append_right hge, List.getElem?_eq_none hge, List.getElem?_replicate]
    split <;> rfl

theorem readByte_writeByte (bytes : List Nat) (i b j : Nat) :
    readByte (writeByte bytes i b) j = if j = i then b % 256 else readByte bytes j := by
  unfold readByte writeByte
  have hlen : i < (bytes ++ List.replicate (i + 1 - bytes.length) 0).length := by
    simp only [List.length_append, List.length_replicate]; omega
  by_cases hj : j = i
  · subst hj
    rw [List.getD_eq_getElem?_getD, List.getElem?_set_self hlen]
    simp
  · have hj2 : i ≠ j := fun h => hj h.symm
    rw [List.getD_eq_getElem?_getD, List.getElem?_set_ne hj2, ← List.getD_eq_getElem?_getD,
      getD_append_replicate_zero]
    simp [hj]

theorem readByte_write4 (bytes : List Nat) (o w j : Nat) :
    readByte (write4 bytes o w) j
      = if j = o then w % 256
        else if j = o + 1 then w / 256 % 256
        else if j = o + 2 then w / 65536 % 256
        else if j = o + 3 then w / 16777216 % 256
        else readByte bytes j := by
  unfold write4
  simp only [readByte_writeByte]
  by_cases h0 : j = o
  · subst h0; simp
  · by_cases h1 : j = o + 1
    · subst h1; simp
    · by_cases h2 : j = o + 2
      · subst h2; simp
      · by_cases h3 : j = o + 3
        · subst h3; simp
        · simp [h0, h1, h2, h3]

theorem read4_write4_same (bytes : List Nat) (o w : Nat) :
    read4 (write4 bytes o w) o = w % 2 ^ 32 := by
  unfold read4
  simp only [readByte_write4]
  simp
  omega

theorem read4_write4_apart (bytes : List Nat) (o w o2 : Nat)
    (h : o + 4 ≤ o2 ∨ o2 + 4 ≤ o) :
    read4 (write4 bytes o w) o2 = read4 bytes o2 := by
  unfold read4
  simp only [readByte_write4]
  have e0 : ¬ o2 = o := by omega
  have e1 : ¬ o2 = o + 1 := by omega
  have e2 : ¬ o2 = o + 2 := by omega
  have e3 : ¬ o2 = o + 3 := by omega
  have f0 : ¬ o2 + 1 = o := by omega
  have f1 : ¬ o2 + 1 = o + 1 := by omega
  have f2 : ¬ o2 + 1 = o + 2 := by omega
  have f3 : ¬ o2 + 1 = o + 3 := by omega
  have g0 : ¬ o2 + 2 = o := by omega
  have g1 : ¬ o2 + 2 = o + 1 := by omega
  have g2 : ¬ o2 + 2 = o + 2 := by omega
  have g3 : ¬ o2 + 2 = o + 3 := by omega
  have k0 : ¬ o2 + 3 = o := by omega
  have k1 : ¬ o2 + 3 = o + 1 := by omega
  have k2 : ¬ o2 + 3 = o + 2 := by omega
  have k3 : ¬ o2 + 3 = o + 3 := by omega
  simp only [e0, e1, e2, e3, f0, f1, f2, f3, g0, g1, g2, g3, k0, k1, k2, k3, if_false]

theorem F32.ofBits_mod (w : Nat) : F32.ofBits (w % 2 ^ 32) = F32.ofBits w := by
  have h1 : w % 2 ^ 32 / 2 ^ 23 % 256 = w / 2 ^ 23 % 256 := by omega
  have h2 : w % 2 ^ 32 % 2 ^ 23 = w % 2 ^ 23 := by omega
  have h3 : w % 2 ^ 32 / 2 ^ 31 % 2 = w / 2 ^ 31 % 2 := by omega
  unfold F32.ofBits
  rw [h1, h2, h3]

theorem PointT.setXYZ_x_offset (p : PointT) (v : Float32) :
    (p.setXYZ v).x_offset = p.x_offset := by
  simp only [PointT.setXYZ, PointT.writeFloat]

theorem PointT.setXYZ_y_offset (p : PointT) (v : Float32) :
    (p.setXYZ v).y_offset = p.y_offset := by
  simp only [PointT.setXYZ, PointT.writeFloat]

theorem PointT.setXYZ_z_offset (p : PointT) (v : Float32) :
    (p.setXYZ v).z_offset = p.z_offset := by
  simp only [PointT.setXYZ, PointT.writeFloat]

theorem PointT.setXYZ_filled (p : PointT) (v : Float32) : PointT.Filled v p (p.setXYZ v) := by
  unfold PointT.Filled
  refine ⟨PointT.setXYZ_x_offset p v, PointT.setXYZ_y_offset p v, PointT.setXYZ_z_offset p v,
    ?_, ?_, ?_, ?_⟩
  · simp only [PointT.x, PointT.readFloat, PointT.setXYZ, PointT.writeFloat, Float32.val]
    rw [read4_write4_same, F32.ofBits_mod]
  · simp only [PointT.y, PointT.readFloat, PointT.setXYZ, PointT.writeFloat, Float32.val]
    rw [read4_write4_apart _ _ _ _ p.xy_apart, read4_write4_same, F32.ofBits_mod]
  · simp only [PointT.z, PointT.readFloat, PointT.setXYZ, PointT.writeFloat, Float32.val]
    rw [read4_write4_apart _ _ _ _ p.xz_apart, read4_write4_apart _ _ _ _ p.yz_apart,
      read4_write4_same, F32.ofBits_mod]
  · intro b hx hy hz
    simp only [PointT.setXYZ, PointT.writeFloat, readByte_write4]
    have : ¬ b = p.x_offset := by omega
    have : ¬ b = p.x_offset + 1 := by omega
    have : ¬ b = p.x_offset + 2 := by omega
    have : ¬ b = p.x_offset + 3 := by omega
    have : ¬ b = p.y_offset := by omega
    have : ¬ b = p.y_offset + 1 := by omega
    have : ¬ b = p.y_offset + 2 := by omega
    have : ¬ b = p.y_offset + 3 := by omega
    have : ¬ b = p.z_offset := by omega
    have : ¬ b = p.z_offset + 1 := by omega
    have : ¬ b = p.z_offset + 2 := by omega
    have : ¬ b = p.z_offset + 3 := by omega
    simp only [*, if_false]

theorem PointT.Filled.trans {v : Float32} {a b c : PointT} (h1 : PointT.Filled v a b)
    (h2 : PointT.Filled v b c) : PointT.Filled v a c := by
  unfold PointT.Filled at h1 h2 ⊢
  obtain ⟨hx, hy, hz, _, _, _, hb⟩ := h1
  obtain ⟨kx, ky, kz, gx, gy, gz, gb⟩ := h2
  refine ⟨kx.trans hx, ky.trans hy, kz.trans hz, gx, gy, gz, ?_⟩
  intro i ix iy iz
  rw [gb i (by rw [hx]; exact ix) (by rw [hy]; exact iy) (by rw [hz]; exact iz)]
  exact hb i ix iy iz

/-! ### The fill loop -/

theorem fillRemoved_spec (value : Float32) : ∀ (removed : List Int) (output : PointCloud),
    (∀ i ∈ removed, 0 ≤ i ∧ i < (output.points.length : Int)) →
    ∃ out, fillRemoved value removed output = some out
      ∧ out.is_dense = output.is_dense
      ∧ out.points.length = output.points.length
      ∧ ∀ (k : Nat) (p : PointT), output.points[k]? = some p →
          ∃ q, out.points[k]? = some q
            ∧ ((k : Int) ∈ removed → PointT.Filled value p q)
            ∧ ((k : Int) ∉ removed → q = p)
  | [], output, _ =>
    ⟨output, rfl, rfl, rfl, fun k p hp => ⟨p, hp, fun h => by simp at h, fun _ => rfl⟩⟩
  | idx :: rest, output, hval => by
    have hidx := hval idx (List.mem_cons_self _ _)
    have hlt : idx.toNat < output.points.length := by omega
    have hat : output.at idx = some output.points[idx.toNat] := by
      simp [PointCloud.at, hidx.1, List.getElem?_eq_getElem hlt]
    obtain ⟨out, hout, hdense, hlen, hpts⟩ := fillRemoved_spec value rest
      { output with points := output.points.set idx.toNat (output.points[idx.toNat].setXYZ value) }
      (by
        intro i hi
        simpa using hval i (List.mem_cons_of_mem _ hi))
    refine ⟨out, by simp only [fillRemoved, hat, hout], hdense, by simpa using hlen, ?_⟩
    intro k p hp
    by_cases hk : idx.toNat = k
    · have hki : (k : Int) = idx := by omega
      subst hk
      have hp0 : output.points[idx.toNat] = p := by
        rw [List.getElem?_eq_getElem hlt] at hp
        exact Option.some.inj hp
      obtain ⟨q, hq, hin, hout2⟩ := hpts idx.toNat (p.setXYZ value)
        (by simp only [List.getElem?_set_self hlt, hp0])
      refine ⟨q, hq, fun _ => ?_, fun h => absurd (by simp [hki]) h⟩
      by_cases hr : ((idx.toNat : Nat) : Int) ∈ rest
      · exact (PointT.setXYZ_filled p value).trans (hin hr)
      · rw [hout2 hr]
        exact PointT.setXYZ_filled p value
    · have hki : (k : Int) ≠ idx := by omega
      obtain ⟨q, hq, hin, hout2⟩ := hpts k p
        (by simp only [List.getElem?_set_ne hk]; exact hp)
      refine ⟨q, hq, fun h => hin ?_, fun h => hout2 (fun h2 => h (List.mem_cons_of_mem _ h2))⟩
      rcases List.mem_cons.mp h with h | h
      · exact absurd h hki
      · exact h

theorem applyFilterIndices_total (fields : List PCLPointField) (self : PassThrough)
    (indices : List Int) (hv : ValidIndices self) :
    ∃ removed, applyFilterIndices fields self indices
        = some ({ self with removed_indices_ := removed },
                self.indices_.filter (keeps fields self))
      ∧ ∀ i ∈ removed, i ∈ self.indices_ := by
  by_cases hcase : self.filter_field_name_ = ""
      ∨ getFieldIndex fields self.filter_field_name_ ≠ -1
  · refine ⟨_, applyFilterIndices_resolved fields self indices hcase hv, ?_⟩
    intro i hi
    split at hi
    · exact (List.mem_filter.mp hi).1
    · simp at hi
  · have hname : self.filter_field_name_ ≠ "" := fun h => hcase (Or.inl h)
    have hd : getFieldIndex fields self.filter_field_name_ = -1 := by
      by_contra h
      exact hcase (Or.inr h)
    refine ⟨[], ?_, by simp⟩
    rw [applyFilterIndices_notFound fields self indices hname hd]
    have : self.indices_.filter (keeps fields self) = [] := by
      rw [List.filter_eq_nil_iff]
      intro i _
      simp [keeps, hname, hd]
    rw [this]

/-- C10: in organized mode (`keepOrganized = true`), for every valid input and
every configuration, the output of `applyFilter` has as many points as the input;
at every position that occurs in the removed sequence of the classification run
(the run with `extractRemoved` forced to true) the output point has
`x = y = z = fillValue`, the same places for its members, and outside the storage
of `x`, `y` and `z` every byte of the input point (so every other field of it); at
every other position the output point is the input point. -/
theorem applyFilter_organized
    (copyPointCloud : PointCloud → List Int → PointCloud → Option PointCloud)
    (fields : List PCLPointField) (self : PassThrough) (output : PointCloud)
    (horg : self.keep_organized_ = true)
    (hv : ValidIndices self) :
    ∃ self1 out removed,
      applyFilter copyPointCloud fields self output = some (self1, out)
      ∧ removedIndices fields { self with extract_removed_indices_ := true } [] = some removed
      ∧ out.points.length = self.input_.points.length
      ∧ ∀ (k : Nat) (p : PointT), self.input_.points[k]? = some p →
          ∃ q, out.points[k]? = some q
            ∧ ((k : Int) ∈ removed →
                q.x = self.user_filter_value_.val ∧ q.y = self.user_filter_value_.val
                ∧ q.z = self.user_filter_value_.val
                ∧ q.x_offset = p.x_offset ∧ q.y_offset = p.y_offset ∧ q.z_offset = p.z_offset
                ∧ ∀ b, (b < p.x_offset ∨ p.x_offset + 4 ≤ b) → (b < p.y_offset ∨ p.y_offset + 4 ≤ b) →
                    (b < p.z_offset ∨ p.z_offset + 4 ≤ b) → readByte q.bytes b = readByte p.bytes b)
            ∧ ((k : Int) ∉ removed → q = p) := by
  obtain ⟨removed, hrun, hsub⟩ := applyFilterIndices_total fields
    { self with extract_removed_indices_ := true } [] hv
  obtain ⟨out, hout, _, hlen, hpts⟩ := fillRemoved_spec self.user_filter_value_ removed
    self.input_ (fun i hi => hv i (hsub i hi))
  have hpoint : ∀ (k : Nat) (p : PointT), self.input_.points[k]? = some p →
      ∃ q, out.points[k]? = some q
        ∧ ((k : Int) ∈ removed →
            q.x = self.user_filter_value_.val ∧ q.y = self.user_filter_value_.val
            ∧ q.z = self.user_filter_value_.val
            ∧ q.x_offset = p.x_offset ∧ q.y_offset = p.y_offset ∧ q.z_offset = p.z_offset
            ∧ ∀ b, (b < p.x_offset ∨ p.x_offset + 4 ≤ b) → (b < p.y_offset ∨ p.y_offset + 4 ≤ b) →
                (b < p.z_offset ∨ p.z_offset + 4 ≤ b) → readByte q.bytes b = readByte p.bytes b)
        ∧ ((k : Int) ∉ removed → q = p) := by
    intro k p hp
    obtain ⟨q, hq, hin, hnot⟩ := hpts k p hp
    refine ⟨q, hq, fun hk => ?_, hnot⟩
    have hf := hin hk
    unfold PointT.Filled at hf
    obtain ⟨ox, oy, oz, vx, vy, vz, hb⟩ := hf
    exact ⟨vx, vy, vz, ox, oy, oz, hb⟩
  have hrem : removedIndices fields { self with extract_removed_indices_ := true } []
      = some removed := by
    unfold removedIndices
    rw [hrun]
    rfl
  cases hfin : self.user_filter_value_.isfinite with
  | true =>
    refine ⟨{ self with removed_indices_ := removed }, out, removed, ?_, hrem, hlen, hpoint⟩
    simp only [applyFilter]
    rw [if_pos horg]
    simp only [hrun, hout, hfin, Bool.not_true, Bool.false_eq_true, if_false]
  | false =>
    refine ⟨{ self with removed_indices_ := removed }, { out with is_dense := false }, removed,
      ?_, hrem, hlen, hpoint⟩
    simp only [applyFilter]
    rw [if_pos horg]
    simp only [hrun, hout, hfin, Bool.not_false, if_true]

/-- Scenario 3: scenario 1 in organized mode with the fill value `0` gives an
output of 5 points, where the points 3 and 4 have the coordinates `(0, 0, 0)` and
the points 0, 1, 2 are unchanged.  On the packed point type with the fill value
`5`, the three removed points get the coordinates `(5, 5, 5)` and keep their field
`t`. -/
theorem applyFilter_organized_scenario3 :
    (∃ self1 out removed,
      applyFilter noCopy fieldsXYZ filter3 emptyCloud = some (self1, out)
      ∧ removedIndices fieldsXYZ { filter3 with extract_removed_indices_ := true } []
          = some removed
      ∧ out.points.length = filter3.input_.points.length
      ∧ ∀ (k : Nat) (p : PointT), filter3.input_.points[k]? = some p →
          ∃ q, out.points[k]? = some q
            ∧ ((k : Int) ∈ removed →
                q.x = filter3.user_filter_value_.val ∧ q.y = filter3.user_filter_value_.val
                ∧ q.z = filter3.user_filter_value_.val
                ∧ q.x_offset = p.x_offset ∧ q.y_offset = p.y_offset ∧ q.z_offset = p.z_offset
                ∧ ∀ b, (b < p.x_offset ∨ p.x_offset + 4 ≤ b) → (b < p.y_offset ∨ p.y_offset + 4 ≤ b) →
                    (b < p.z_offset ∨ p.z_offset + 4 ≤ b) → readByte q.bytes b = readByte p.bytes b)
            ∧ ((k : Int) ∉ removed → q = p))
    ∧ removedIndices fieldsXYZ { filter3 with extract_removed_indices_ := true } []
        = some [3, 4]
    ∧ (applyFilter noCopy fieldsXYZ filter3 emptyCloud).map (fun r => r.2.points)
        = some [pointZ f32_0, pointZ f32_1, pointZ f32_2, pointZ f32_0, pointZ f32_0]
    ∧ (applyFilter noCopy fieldsXYZ filter3 emptyCloud).map
        (fun r => r.2.points.map (fun q => (q.x, q.y, q.z)))
        = some [(F32.fin 0, F32.fin 0, F32.fin 0), (F32.fin 0, F32.fin 0, F32.fin 1),
            (F32.fin 0, F32.fin 0, F32.fin 2), (F32.fin 0, F32.fin 0, F32.fin 0),
            (F32.fin 0, F32.fin 0, F32.fin 0)]
    ∧ (applyFilter noCopy fieldsPacked
          { filterPacked false false with keep_organized_ := true, user_filter_value_ := f32_5 }
          emptyCloud).map
        (fun r => r.2.points.map (fun q => (q.x, q.y, q.z, q.readFloat 14)))
        = some [(F32.fin 0, F32.fin 0, F32.fin 1, F32.fin 1),
            (F32.fin 5, F32.fin 5, F32.fin 5, F32.fin 5),
            (F32.fin 5, F32.fin 5, F32.fin 5, F32.fin 1),
            (F32.fin 5, F32.fin 5, F32.fin 5, F32.nan)] :=
  ⟨applyFilter_organized noCopy fieldsXYZ filter3 emptyCloud rfl (by decide),
    by decide, by decide, by decide, by decide⟩

/-! ## Compact mode (C11) -/

theorem selectPoints_eq_some_iff (cloud : PointCloud) : ∀ (idx : List Int) (ps : List PointT),
    selectPoints cloud idx = some ps ↔ idx.map cloud.at = ps.map some
  | [], ps => by
    cases ps <;> simp [selectPoints]
  | i :: rest, ps => by
    cases hp : cloud.at i with
    | none =>
      cases ps <;> simp [selectPoints, hp]
    | some p =>
      cases hrest : selectPoints cloud rest with
      | none =>
        cases ps with
        | nil => simp [selectPoints, hp, hrest]
        | cons q qs =>
          have := (selectPoints_eq_some_iff cloud rest qs).not.mp (by simp [hrest])
          simp [selectPoints, hp, hrest, this]
      | some rs =>
        have hrs := (selectPoints_eq_some_iff cloud rest rs).mp hrest
        cases ps with
        | nil => simp [selectPoints, hp, hrest]
        | cons q qs =>
          simp only [selectPoints, hp, hrest, Option.some.injEq, List.cons.injEq, List.map_cons]
          constructor
          · rintro ⟨rfl, rfl⟩
            exact ⟨rfl, hrs⟩
          · rintro ⟨hq, hqs⟩
            refine ⟨hq, ?_⟩
            rw [hrs] at hqs
            exact List.map_injective_iff.mpr (Option.some_injective _) hqs

theorem selectPoints_of_valid (cloud : PointCloud) : ∀ (idx : List Int),
    (∀ i ∈ idx, 0 ≤ i ∧ i < (cloud.points.length : Int)) →
    ∃ ps, selectPoints cloud idx = some ps
  | [], _ => ⟨[], rfl⟩
  | i :: rest, h => by
    obtain ⟨p, hp, _⟩ := at_of_valid cloud i (h i (List.mem_cons_self _ _)).1
      (h i (List.mem_cons_self _ _)).2
    obtain ⟨ps, hps⟩ := selectPoints_of_valid cloud rest
      (fun j hj => h j (List.mem_cons_of_mem _ hj))
    exact ⟨p :: ps, by simp [selectPoints, hp, hps]⟩

theorem applyFilter_compact_run (fields : List PCLPointField) (self : PassThrough)
    (output : PointCloud) (hcompact : self.keep_organized_ = false)
    (hv : ValidIndices self) :
    ∃ removed ps,
      selectPoints self.input_ (self.indices_.filter (keeps fields self)) = some ps
      ∧ applyFilter copyPointCloud fields self output
          = some ({ self with removed_indices_ := removed },
                  { points := ps, is_dense := true }) := by
  obtain ⟨removed, hrun, _⟩ := applyFilterIndices_total fields self [] hv
  obtain ⟨ps, hps⟩ := selectPoints_of_valid self.input_
    (self.indices_.filter (keeps fields self))
    (fun i hi => hv i (List.mem_filter.mp hi).1)
  refine ⟨removed, ps, hps, ?_⟩
  simp only [applyFilter]
  rw [if_neg (by simp [hcompact])]
  simp only [hrun, copyPointCloud, hps]

/-- C11: in compact mode (`keepOrganized = false`), for every valid input and
every configuration, the output of `applyFilter` is what the indexed copy makes of
the input cloud and the kept indices (for every indexed copy); with the indexed
copy of the specification its point sequence is exactly the list of the input
points at the kept indices, in kept order, each record copied whole, so the
output has as many points as there are kept indices. -/
theorem applyFilter_compact_points (fields : List PCLPointField) (self : PassThrough)
    (output : PointCloud) (hcompact : self.keep_organized_ = false)
    (hv : ValidIndices self) :
    ∃ self1 out kept,
      applyFilter copyPointCloud fields self output = some (self1, out)
      ∧ keptIndices fields self [] = some kept
      ∧ kept.map self.input_.at = out.points.map some
      ∧ out.points.length = kept.length
      ∧ ∀ copy : PointCloud → List Int → PointCloud → Option PointCloud,
          (applyFilter copy fields self output).map (fun r => r.2)
            = copy self.input_ kept { output with is_dense := true } := by
  obtain ⟨removed, ps, hps, hrun⟩ := applyFilter_compact_run fields self output hcompact hv
  obtain ⟨removed2, hrun2, _⟩ := applyFilterIndices_total fields self [] hv
  have hmap := (selectPoints_eq_some_iff _ _ _).mp hps
  refine ⟨_, _, _, hrun, keptIndices_eq fields self [] hv, hmap, ?_, ?_⟩
  · have := congrArg List.length hmap
    simpa using this.symm
  · intro copy
    simp only [applyFilter]
    rw [if_neg (by simp [hcompact])]
    simp only [hrun2]
    cases copy self.input_ (self.indices_.filter (keeps fields self))
      { output with is_dense := true } <;> rfl

/-- Scenario 1 in compact mode: the output is the points 0, 1, 2 of the input. -/
theorem applyFilter_compact_points_scenario1 :
    (∃ self1 out kept,
      applyFilter copyPointCloud fieldsXYZ (filter1 false true) emptyCloud = some (self1, out)
      ∧ keptIndices fieldsXYZ (filter1 false true) [] = some kept
      ∧ kept.map (filter1 false true).input_.at = out.points.map some
      ∧ out.points.length = kept.length
      ∧ ∀ copy : PointCloud → List Int → PointCloud → Option PointCloud,
          (applyFilter copy fieldsXYZ (filter1 false true) emptyCloud).map (fun r => r.2)
            = copy (filter1 false true).input_ kept { emptyCloud with is_dense := true })
    ∧ (applyFilter copyPointCloud fieldsXYZ (filter1 false true) emptyCloud).map
        (fun r => r.2.points)
        = some [pointZ f32_0, pointZ f32_1, pointZ f32_2] :=
  ⟨applyFilter_compact_points fieldsXYZ (filter1 false true) emptyCloud rfl (by decide),
    by decide⟩

/-! ## Organized mode: density flag, `extractRemoved`, absent field (C13, C15, C18) -/

theorem applyFilter_organized_run
    (copyPointCloud : PointCloud → List Int → PointCloud → Option PointCloud)
    (fields : List PCLPointField) (self : PassThrough) (output : PointCloud)
    (horg : self.keep_organized_ = true)
    (hv : ValidIndices self) :
    ∃ removed out1,
      removedIndices fields { self with extract_removed_indices_ := true } [] = some removed
      ∧ fillRemoved self.user_filter_value_ removed self.input_ = some out1
      ∧ out1.is_dense = self.input_.is_dense
      ∧ applyFilter copyPointCloud fields self output
          = some ({ self with removed_indices_ := removed },
                  if self.user_filter_value_.isfinite then out1
                  else { out1 with is_dense := false }) := by
  obtain ⟨removed, hrun, hsub⟩ := applyFilterIndices_total fields
    { self with extract_removed_indices_ := true } [] hv
  obtain ⟨out, hout, hdense, _, _⟩ := fillRemoved_spec self.user_filter_value_ removed
    self.input_ (fun i hi => hv i (hsub i hi))
  have hrem : removedIndices fields { self with extract_removed_indices_ := true } []
      = some removed := by
    unfold removedIndices
    rw [hrun]
    rfl
  refine ⟨removed, out, hrem, hout, hdense, ?_⟩
  simp only [applyFilter]
  rw [if_pos horg]
  cases hfin : self.user_filter_value_.isfinite with
  | true => simp only [hrun, hout, hfin, Bool.not_true, Bool.false_eq_true, if_false, if_true]
  | false => simp only [hrun, hout, hfin, Bool.not_false, if_true, Bool.false_eq_true, if_false]

/-- C13: in organized mode, for every valid input and every configuration, the
density flag of the output is false when `fillValue` is not finite (whether or not
a point was removed), and is the density flag of the input when `fillValue` is
finite. -/
theorem applyFilter_organized_dense
    (copyPointCloud : PointCloud → List Int → PointCloud → Option PointCloud)
    (fields : List PCLPointField) (self : PassThrough) (output : PointCloud)
    (horg : self.keep_organized_ = true)
    (hv : ValidIndices self) :
    ∃ self1 out,
      applyFilter copyPointCloud fields self output = some (self1, out)
      ∧ (self.user_filter_value_.isfinite = false → out.is_dense = false)
      ∧ (self.user_filter_value_.isfinite = true → out.is_dense = self.input_.is_dense) := by
  obtain ⟨removed, out1, _, _, hdense, hrun⟩ :=
    applyFilter_organized_run copyPointCloud fields self output horg hv
  refine ⟨_, _, hrun, ?_, ?_⟩
  · intro h
    simp [h]
  · intro h
    simp [h, hdense]

/-- Scenario 4 (fill value NaN, dense input, no point removed): the output flag is
false.  Scenario 3 (fill value 0, input flag false): the output flag is the
input's. -/
theorem applyFilter_organized_dense_scenarios :
    (∃ self1 out,
      applyFilter noCopy fieldsXYZ filter4 emptyCloud = some (self1, out)
      ∧ (filter4.user_filter_value_.isfinite = false → out.is_dense = false)
      ∧ (filter4.user_filter_value_.isfinite = true → out.is_dense = filter4.input_.is_dense))
    ∧ removedIndices fieldsXYZ { filter4 with extract_removed_indices_ := true } [] = some []
    ∧ (applyFilter noCopy fieldsXYZ filter4 emptyCloud).map (fun r => r.2.is_dense)
        = some false
    ∧ (applyFilter noCopy fieldsXYZ filter3 emptyCloud).map (fun r => r.2.is_dense)
        = some filter3.input_.is_dense
    ∧ (applyFilter noCopy fieldsXYZ
          { filter3 with input_ := { cloud1 with is_dense := true } } emptyCloud).map
        (fun r => r.2.is_dense) = some true :=
  ⟨applyFilter_organized_dense noCopy fieldsXYZ filter4 emptyCloud rfl (by decide),
    by decide, by decide, by decide, by decide⟩

/-- C15: in organized mode the output of `applyFilter` (points and density flag)
is the same whether the caller configured `extractRemoved = true` or
`extractRemoved = false`: the classification run is made with the flag forced to
true.  On a valid input the call returns an output. -/
theorem applyFilter_organized_ignores_extract
    (copyPointCloud : PointCloud → List Int → PointCloud → Option PointCloud)
    (fields : List PCLPointField) (self : PassThrough) (output : PointCloud)
    (horg : self.keep_organized_ = true)
    (hv : ValidIndices self) :
    (applyFilter copyPointCloud fields { self with extract_removed_indices_ := true }
        output).map (fun r => r.2)
      = (applyFilter copyPointCloud fields { self with extract_removed_indices_ := false }
        output).map (fun r => r.2)
    ∧ ∃ out, (applyFilter copyPointCloud fields { self with extract_removed_indices_ := true }
        output).map (fun r => r.2) = some out := by
  constructor
  · obtain ⟨inp, idx, rem, ext, name, lo, hi, neg, org, fill⟩ := self
    simp only at horg
    subst horg
    simp only [applyFilter, if_true]
    cases applyFilterIndices fields
        { input_ := inp, indices_ := idx, removed_indices_ := rem,
          extract_removed_indices_ := true, filter_field_name_ := name,
          filter_limit_min_ := lo, filter_limit_max_ := hi,
          negative_ := neg, keep_organized_ := true, user_filter_value_ := fill } [] with
    | none => rfl
    | some r =>
      obtain ⟨self1, kept⟩ := r
      simp only
      cases fillRemoved self1.user_filter_value_ self1.removed_indices_ self1.input_ with
      | none => rfl
      | some out1 =>
        simp only
        cases self1.user_filter_value_.isfinite <;> rfl
  · obtain ⟨removed, out1, _, _, _, hrun⟩ := applyFilter_organized_run copyPointCloud fields
      { self with extract_removed_indices_ := true } output horg hv
    rw [hrun]
    exact ⟨_, rfl⟩

/-- Scenario 3 with the caller's flag set either way gives the same five points
and the same density flag. -/
theorem applyFilter_organized_ignores_extract_scenario3 :
    ((applyFilter noCopy fieldsXYZ { filter3 with extract_removed_indices_ := true }
        emptyCloud).map (fun r => r.2)
      = (applyFilter noCopy fieldsXYZ { filter3 with extract_removed_indices_ := false }
        emptyCloud).map (fun r => r.2)
    ∧ ∃ out, (applyFilter noCopy fieldsXYZ { filter3 with extract_removed_indices_ := true }
        emptyCloud).map (fun r => r.2) = some out)
    ∧ (applyFilter noCopy fieldsXYZ { filter3 with extract_removed_indices_ := false }
        emptyCloud).map (fun r => r.2)
        = some { points := [pointZ f32_0, pointZ f32_1, pointZ f32_2,
                    pointZ f32_0, pointZ f32_0],
                 is_dense := false } :=
  ⟨applyFilter_organized_ignores_extract noCopy fieldsXYZ filter3 emptyCloud rfl (by decide),
    by decide⟩

/-- C18: in organized mode, when the field name is not empty and no field of the
point type has that name, `applyFilter` returns an output whose points are the
input points, all unchanged (also those with non-finite coordinates), for every
input, index list, limits, `negate` and fill value. -/
theorem applyFilter_organized_field_not_found
    (copyPointCloud : PointCloud → List Int → PointCloud → Option PointCloud)
    (fields : List PCLPointField) (self : PassThrough) (output : PointCloud)
    (horg : self.keep_organized_ = true)
    (hname : self.filter_field_name_ ≠ "")
    (habsent : ∀ f ∈ fields, f.name ≠ self.filter_field_name_) :
    ∃ self1 out,
      applyFilter copyPointCloud fields self output = some (self1, out)
      ∧ out.points = self.input_.points := by
  have hd := (getFieldIndex_absent fields self.filter_field_name_).mpr habsent
  have hrun := applyFilterIndices_notFound fields
    { self with extract_removed_indices_ := true } [] hname hd
  cases hfin : self.user_filter_value_.isfinite with
  | true =>
    refine ⟨{ self with removed_indices_ := [] }, self.input_, ?_, rfl⟩
    simp only [applyFilter]
    rw [if_pos horg]
    simp only [hrun, fillRemoved, hfin, Bool.not_true, Bool.false_eq_true, if_false]
  | false =>
    refine ⟨{ self with removed_indices_ := [] }, { self.input_ with is_dense := false }, ?_,
      rfl⟩
    simp only [applyFilter]
    rw [if_pos horg]
    simp only [hrun, fillRemoved, hfin, Bool.not_false, if_true]

/-- Scenario 1 in organized mode with the field name `w`: the five output points
are the five input points, the one with `z = NaN` included. -/
theorem applyFilter_organized_field_not_found_scenario :
    (∃ self1 out,
      applyFilter noCopy fieldsXYZ
          { filterUnknownField false false with keep_organized_ := true } emptyCloud
        = some (self1, out)
      ∧ out.points
        = ({ filterUnknownField false false with keep_organized_ := true } : PassThrough).input_.points)
    ∧ (applyFilter noCopy fieldsXYZ
          { filterUnknownField false false with keep_organized_ := true } emptyCloud).map
        (fun r => r.2.points) = some cloud1.points :=
  ⟨applyFilter_organized_field_not_found noCopy fieldsXYZ
    { filterUnknownField false false with keep_organized_ := true } emptyCloud rfl (by decide)
    (by decide), by decide⟩

/-! ## `extractRemoved` and the kept indices (C16) -/

theorem keeps_extract (fields : List PCLPointField) (self : PassThrough) (b : Bool) :
    keeps fields { self with extract_removed_indices_ := b } = keeps fields self := rfl

/-- C16: for every valid input and every configuration, `applyFilterIndices` with
`extractRemoved = false` returns an empty removed sequence and the same kept
sequence as with `extractRemoved = true`, everything else equal. -/
theorem applyFilterIndices_extract_only_removed (fields : List PCLPointField)
    (self : PassThrough) (indices : List Int)
    (hv : ValidIndices self) :
    removedIndices fields { self with extract_removed_indices_ := false } indices = some []
    ∧ keptIndices fields { self with extract_removed_indices_ := false } indices
        = keptIndices fields { self with extract_removed_indices_ := true } indices
    ∧ ∃ kept, keptIndices fields { self with extract_removed_indices_ := true } indices
        = some kept := by
  refine ⟨?_, ?_, ?_⟩
  · by_cases hcase : self.filter_field_name_ = ""
        ∨ getFieldIndex fields self.filter_field_name_ ≠ -1
    · unfold removedIndices
      rw [applyFilterIndices_resolved fields { self with extract_removed_indices_ := false }
        indices hcase hv]
      rfl
    · have hname : self.filter_field_name_ ≠ "" := fun h => hcase (Or.inl h)
      have hd : getFieldIndex fields self.filter_field_name_ = -1 := by
        by_contra h
        exact hcase (Or.inr h)
      unfold removedIndices
      rw [applyFilterIndices_notFound fields { self with extract_removed_indices_ := false }
        indices hname hd]
      rfl
  · rw [keptIndices_eq fields { self with extract_removed_indices_ := false } indices hv,
      keptIndices_eq fields { self with extract_removed_indices_ := true } indices hv]
    rfl
  · exact ⟨_, keptIndices_eq fields { self with extract_removed_indices_ := true } indices hv⟩

/-- Scenario 1: without extraction removed is empty and kept is `[0, 1, 2]`, as it
is with extraction, where removed is `[3, 4]`. -/
theorem applyFilterIndices_extract_only_removed_scenario1 :
    (removedIndices fieldsXYZ { filter1 false true with extract_removed_indices_ := false } []
        = some []
    ∧ keptIndices fieldsXYZ { filter1 false true with extract_removed_indices_ := false } []
        = keptIndices fieldsXYZ { filter1 false true with extract_removed_indices_ := true } []
    ∧ ∃ kept, keptIndices fieldsXYZ { filter1 false true with extract_removed_indices_ := true } []
        = some kept)
    ∧ keptIndices fieldsXYZ { filter1 false true with extract_removed_indices_ := false } []
        = some [0, 1, 2]
    ∧ removedIndices fieldsXYZ { filter1 false true with extract_removed_indices_ := true } []
        = some [3, 4] :=
  ⟨applyFilterIndices_extract_only_removed fieldsXYZ (filter1 false true) [] (by decide),
    by decide, by decide⟩

/-! ## The configuration after `applyFilter` (C19) -/

theorem copyPointCloud_isSome (cloud_in : PointCloud) (indices : List Int)
    (cloud_out : PointCloud)
    (h : ∀ i ∈ indices, 0 ≤ i ∧ i < (cloud_in.points.length : Int)) :
    (copyPointCloud cloud_in indices cloud_out).isSome = true := by
  obtain ⟨ps, hps⟩ := selectPoints_of_valid cloud_in indices h
  simp [copyPointCloud, hps]

/-- C19: for every valid input and every configuration, in organized and in
compact mode, with an indexed copy that returns on indices of the input: after
`applyFilter` the members `extract_removed_indices_`, `filter_field_name_`,
`filter_limit_min_`, `filter_limit_max_`, `negative_`, `keep_organized_`,
`user_filter_value_`, the input cloud and the input index list have the values
they had before the call; in organized mode the classification run is the one
with `extract_removed_indices_` set to true, and the caller's value is back
afterwards (also when the field is not found). -/
theorem applyFilter_frame
    (copyPointCloud : PointCloud → List Int → PointCloud → Option PointCloud)
    (fields : List PCLPointField) (self : PassThrough) (output : PointCloud)
    (hv : ValidIndices self)
    (hcopy : ∀ idx out, (∀ i ∈ idx, i ∈ self.indices_) →
      (copyPointCloud self.input_ idx out).isSome = true) :
    ∃ self1 out,
      applyFilter copyPointCloud fields self output = some (self1, out)
      ∧ self1.extract_removed_indices_ = self.extract_removed_indices_
      ∧ self1.filter_field_name_ = self.filter_field_name_
      ∧ self1.filter_limit_min_ = self.filter_limit_min_
      ∧ self1.filter_limit_max_ = self.filter_limit_max_
      ∧ self1.negative_ = self.negative_
      ∧ self1.keep_organized_ = self.keep_organized_
      ∧ self1.user_filter_value_ = self.user_filter_value_
      ∧ self1.input_ = self.input_
      ∧ self1.indices_ = self.indices_
      ∧ (self.keep_organized_ = true →
          removedIndices fields { self with extract_removed_indices_ := true } []
            = some self1.removed_indices_) := by
  rcases Bool.eq_false_or_eq_true self.keep_organized_ with horg | horg
  · obtain ⟨removed, out1, hrem, _, _, hrun⟩ :=
      applyFilter_organized_run copyPointCloud fields self output horg hv
    exact ⟨_, _, hrun, rfl, rfl, rfl, rfl, rfl, rfl, rfl, rfl, rfl, fun _ => hrem⟩
  · obtain ⟨removed, hrun, _⟩ := applyFilterIndices_total fields self [] hv
    have hsome := hcopy (self.indices_.filter (keeps fields self))
      { output with is_dense := true } (fun i hi => (List.mem_filter.mp hi).1)
    obtain ⟨out2, hout2⟩ := Option.isSome_iff_exists.mp hsome
    refine ⟨{ self with removed_indices_ := removed }, out2, ?_, rfl, rfl, rfl, rfl, rfl,
      rfl, rfl, rfl, rfl, fun h => by rw [horg] at h; cases h⟩
    simp only [applyFilter]
    rw [if_neg (by simp [horg])]
    simp only [hrun, hout2]

/-- Scenario 3 (organized, caller's `extractRemoved = false`) and scenario 1
(compact, with the indexed copy of the specification): the configuration is
unchanged by the call; in scenario 3 the flag is false again after the call
although the removed indices `[3, 4]` were produced. -/
theorem applyFilter_frame_scenarios :
    (∃ self1 out,
      applyFilter pcl.copyPointCloud fieldsXYZ filter3 emptyCloud = some (self1, out)
      ∧ self1.extract_removed_indices_ = filter3.extract_removed_indices_
      ∧ self1.filter_field_name_ = filter3.filter_field_name_
      ∧ self1.filter_limit_min_ = filter3.filter_limit_min_
      ∧ self1.filter_limit_max_ = filter3.filter_limit_max_
      ∧ self1.negative_ = filter3.negative_
      ∧ self1.keep_organized_ = filter3.keep_organized_
      ∧ self1.user_filter_value_ = filter3.user_filter_value_
      ∧ self1.input_ = filter3.input_
      ∧ self1.indices_ = filter3.indices_
      ∧ (filter3.keep_organized_ = true →
          removedIndices fieldsXYZ { filter3 with extract_removed_indices_ := true } []
            = some self1.removed_indices_))
    ∧ (applyFilter pcl.copyPointCloud fieldsXYZ filter3 emptyCloud).map
        (fun r => (r.1.extract_removed_indices_, r.1.removed_indices_))
        = some (false, [3, 4])
    ∧ (applyFilter pcl.copyPointCloud fieldsXYZ (filter1 false true) emptyCloud).map
        (fun r => (r.1.extract_removed_indices_, r.1.keep_organized_, r.1.indices_))
        = some (true, false, [0, 1, 2, 3, 4]) :=
  ⟨applyFilter_frame pcl.copyPointCloud fieldsXYZ filter3 emptyCloud (by decide)
    (fun idx out h => copyPointCloud_isSome filter3.input_ idx out
      (fun i hi => (by decide : ValidIndices filter3) i (h i hi))),
    by decide, by decide⟩

/-! ## The write cursors (C17) -/

theorem partitionLoop_append (dec : Int → Option Bool) (extract : Bool) :
    ∀ (a b : List Int) (s : Cursors),
      partitionLoop dec extract (a ++ b) s
        = (partitionLoop dec extract a s).bind (partitionLoop dec extract b)
  | [], _, _ => rfl
  | i :: a, b, s => by
    simp only [List.cons_append, partitionLoop]
    cases dec i with
    | none => rfl
    | some c =>
      cases c with
      | true =>
        simp only
        cases pushKept s i with
        | none => rfl
        | some s1 => exact partitionLoop_append dec extract a b s1
      | false =>
        simp only
        cases pushRemoved extract s i with
        | none => rfl
        | some s1 => exact partitionLoop_append dec extract a b s1

theorem length_filter_decisions (dec : Int → Option Bool) : ∀ l : List Int,
    (l.filter (fun i => dec i == some true)).length
      + (l.filter (fun i => dec i == some false)).length ≤ l.length
  | [] => by simp
  | a :: l => by
    have ih := length_filter_decisions dec l
    cases h : dec a with
    | none => simp [List.filter_cons, h]; omega
    | some b => cases b <;> simp [List.filter_cons, h] <;> omega

theorem partitionLoop_prefix (dec : Int → Option Bool) (extract : Bool)
    (idx ind rem pre post : List Int) (hsplit : idx = pre ++ post)
    (hd : ∀ i ∈ idx, (dec i).isSome = true) :
    ∃ s, partitionLoop dec extract pre
          { indices := resize ind idx.length, removed := resize rem idx.length,
            oii := 0, rii := 0 } = some s
      ∧ s.oii + s.rii ≤ pre.length
      ∧ pre.length ≤ idx.length
      ∧ s.indices.length = idx.length
      ∧ s.removed.length = idx.length
      ∧ partitionLoop dec extract idx
          { indices := resize ind idx.length, removed := resize rem idx.length,
            oii := 0, rii := 0 } = partitionLoop dec extract post s := by
  have hlen : pre.length ≤ idx.length := by
    rw [hsplit, List.length_append]; omega
  have h0 : Cursors.Holds idx.length extract [] []
      { indices := resize ind idx.length, removed := resize rem idx.length,
        oii := 0, rii := 0 } :=
    ⟨resize_length _ _, resize_length _ _, rfl, by simp, by simp, by intro _; simp⟩
  obtain ⟨s, hs, hh⟩ := partitionLoop_holds dec idx.length extract pre [] [] _ h0
    (by simpa using hlen)
    (fun i hi => hd i (by rw [hsplit]; exact List.mem_append_left _ hi))
  simp only [List.nil_append] at hh
  refine ⟨s, hs, ?_, hlen, hh.len_indices, hh.len_removed, ?_⟩
  · have hsum := length_filter_decisions dec pre
    rw [hh.oii_eq, hh.rii_eq]
    split <;> omega
  · have key : ∀ s0, partitionLoop dec extract idx s0
        = (partitionLoop dec extract pre s0).bind (partitionLoop dec extract post) := by
      intro s0
      rw [hsplit]
      exact partitionLoop_append dec extract pre post s0
    rw [key, hs]
    rfl

theorem passLoop_isSome_decisions (fields : List PCLPointField) (self : PassThrough)
    (hcase : self.filter_field_name_ = "" ∨ getFieldIndex fields self.filter_field_name_ ≠ -1)
    (hv : ValidIndices self) :
    ∃ dec : Int → Option Bool,
      (∀ l s, passLoop fields self l s
        = partitionLoop dec self.extract_removed_indices_ l s)
      ∧ ∀ i ∈ self.indices_, (dec i).isSome = true := by
  by_cases hname : self.filter_field_name_ = ""
  · exact ⟨keepFinite self, fun l s => by simp only [passLoop, hname, if_true, loopFinite_eq],
      keepFinite_isSome self hv⟩
  · have hd : getFieldIndex fields self.filter_field_name_ ≠ -1 := by
      rcases hcase with h | h
      · exact absurd h hname
      · exact h
    exact ⟨keepField self fields (getFieldIndex fields self.filter_field_name_),
      fun l s => by simp only [passLoop, hname, if_false, loopField_eq],
      keepField_isSome self fields hv hd⟩

theorem applyFilterIndices_eq_passLoop (fields : List PCLPointField) (self : PassThrough)
    (indices : List Int)
    (hcase : self.filter_field_name_ = "" ∨ getFieldIndex fields self.filter_field_name_ ≠ -1) :
    applyFilterIndices fields self indices
      = (passLoop fields self self.indices_ (initialCursors self indices)).map
          (fun s => ({ self with removed_indices_ := resize s.removed s.rii },
                     resize s.indices s.oii)) := by
  by_cases hname : self.filter_field_name_ = ""
  · simp only [applyFilterIndices, passLoop, initialCursors, hname, if_true]
    cases loopFinite self self.indices_ _ <;> rfl
  · have hd : getFieldIndex fields self.filter_field_name_ ≠ -1 := by
      rcases hcase with h | h
      · exact absurd h hname
      · exact h
    simp only [applyFilterIndices, passLoop, initialCursors, hname, hd, if_false]
    cases loopField self fields _ self.indices_ _ <;> rfl

/-- C17: on a valid input whose field name is empty or resolves (the cases in
which the pass runs), after any number of input indices processed (`pre`, with
`post` still to come) the loop has reached cursors `oii`, `rii` with
`oii + rii <= |pre| <= |input indices|`, both arrays still have `|input indices|`
entries, so the next writes `indices[oii]` and `(*removed_indices_)[rii]` are
inside the arrays; the pass goes on from these cursors, and at the end of the pass
the resize to `oii` and `rii` does not grow either array. -/
theorem applyFilterIndices_cursors_in_bounds (fields : List PCLPointField)
    (self : PassThrough) (indices : List Int)
    (hcase : self.filter_field_name_ = "" ∨ getFieldIndex fields self.filter_field_name_ ≠ -1)
    (hv : ValidIndices self)
    (pre post : List Int) (hsplit : self.indices_ = pre ++ post) :
    ∃ s, passLoop fields self pre (initialCursors self indices) = some s
      ∧ s.oii + s.rii ≤ pre.length
      ∧ pre.length ≤ self.indices_.length
      ∧ s.indices.length = self.indices_.length
      ∧ s.removed.length = self.indices_.length
      ∧ (post ≠ [] → s.oii < s.indices.length ∧ s.rii < s.removed.length)
      ∧ passLoop fields self self.indices_ (initialCursors self indices)
          = passLoop fields self post s
      ∧ (post = [] →
          applyFilterIndices fields self indices
            = some ({ self with removed_indices_ := resize s.removed s.rii },
                    resize s.indices s.oii)
          ∧ (resize s.indices s.oii).length ≤ s.indices.length
          ∧ (resize s.removed s.rii).length ≤ s.removed.length) := by
  obtain ⟨dec, hloop, hdec⟩ := passLoop_isSome_decisions fields self hcase hv
  obtain ⟨s, hs, hsum, hlen, hli, hlr, hgo⟩ := partitionLoop_prefix dec
    self.extract_removed_indices_ self.indices_ indices self.removed_indices_ pre post hsplit hdec
  have hpre : passLoop fields self pre (initialCursors self indices) = some s := by
    rw [hloop]; exact hs
  have hall : passLoop fields self self.indices_ (initialCursors self indices)
      = passLoop fields self post s := by
    rw [hloop, hloop]; exact hgo
  refine ⟨s, hpre, hsum, hlen, hli, hlr, ?_, hall, ?_⟩
  · intro hpost
    have hpos : 0 < post.length := List.length_pos.mpr hpost
    have : self.indices_.length = pre.length + post.length := by
      rw [hsplit, List.length_append]
    omega
  · intro hpost
    subst hpost
    have hfull : pre = self.indices_ := by simpa using hsplit.symm
    refine ⟨?_, ?_, ?_⟩
    · rw [applyFilterIndices_eq_passLoop fields self indices hcase, ← hfull, hpre]
      rfl
    · rw [resize_length]; omega
    · rw [resize_length]; omega

/-- Scenario 1 after the three indices `[0, 1, 2]`, with `[3, 4]` to come: the
cursors are `oii = 3`, `rii = 0`, in arrays of 5 entries. -/
theorem applyFilterIndices_cursors_in_bounds_scenario1 :
    (∃ s, passLoop fieldsXYZ (filter1 false true) [0, 1, 2]
          (initialCursors (filter1 false true) []) = some s
      ∧ s.oii + s.rii ≤ [(0 : Int), 1, 2].length
      ∧ [(0 : Int), 1, 2].length ≤ (filter1 false true).indices_.length
      ∧ s.indices.length = (filter1 false true).indices_.length
      ∧ s.removed.length = (filter1 false true).indices_.length
      ∧ ([(3 : Int), 4] ≠ [] → s.oii < s.indices.length ∧ s.rii < s.removed.length)
      ∧ passLoop fieldsXYZ (filter1 false true) (filter1 false true).indices_
            (initialCursors (filter1 false true) [])
          = passLoop fieldsXYZ (filter1 false true) [3, 4] s
      ∧ ([(3 : Int), 4] = [] →
          applyFilterIndices fieldsXYZ (filter1 false true) []
            = some ({ filter1 false true with removed_indices_ := resize s.removed s.rii },
                    resize s.indices s.oii)
          ∧ (resize s.indices s.oii).length ≤ s.indices.length
          ∧ (resize s.removed s.rii).length ≤ s.removed.length))
    ∧ (passLoop fieldsXYZ (filter1 false true) [0, 1, 2]
          (initialCursors (filter1 false true) [])).map
        (fun s => (s.oii, s.rii, s.indices, s.removed))
        = some (3, 0, [0, 1, 2, 0, 0], [0, 0, 0, 0, 0]) :=
  ⟨applyFilterIndices_cursors_in_bounds fieldsXYZ (filter1 false true) [] (by decide)
    (by decide) [0, 1, 2] [3, 4] rfl, by decide⟩

/-! ## Idempotence of the compact filter (C14) -/

end pcl
